import Mathlib

/-! # Thread-local storage regions (`tls.c`)

A shallow embedding of the TLS region manager of `tls.c`.  The process state is
modelled explicitly: the per-thread variable `thread_tls`, the per-thread value
stored under `tls_key`, the heap objects obtained from `malloc`, and the page
table and bytes of the address space managed through `mmap`, `mprotect` and
`munmap`.  Every operation takes the calling thread as an argument, because the
C code reads `thread_tls`, which is declared `__thread`.

The library calls are modelled from their Linux manual pages:
* `malloc` and `mmap` return what the environment hands out (`Env`), which may
  be a failure;
* `mprotect` works on whole pages, rejects an address that is not a multiple of
  the page size (`EINVAL`) and stops at the first unmapped page (`ENOMEM`);
* `memcpy` faults when it touches a page without the required permission.
-/

namespace Tls

/-- Page size in bytes: `#define PAGE_SIZE 4096` (tls.c:9); `getpagesize()` returns the same. -/
def PAGE_SIZE : Nat := 4096

/-- Number of values of the C type `unsigned int` (32 bits). -/
def UINT_MOD : Nat := 2 ^ 32

/-- Page protections used by `tls.c`: `PROT_NONE`, `PROT_READ`, `PROT_READ | PROT_WRITE`. -/
inductive Prot where
  | PROT_NONE
  | PROT_READ
  | PROT_RW
deriving DecidableEq, Repr

/-- The record `TLS` of tls.c:11-15.  `data` is the address returned by `mmap`,
`ref_count` the address of the shared `int` returned by `malloc`. -/
structure TLS where
  size : Nat
  data : Nat
  ref_count : Nat
deriving DecidableEq, Repr

/-- Process state seen by the TLS functions.
* `thread_tls t`: the `__thread TLS *thread_tls` of thread `t` (`none` is `NULL`);
* `specific t`: what `pthread_getspecific(tls_key)` returns in thread `t`;
* `tlsHeap p`: the live `TLS` record at address `p`, if any;
* `intHeap q`: the live `int` at address `q`, if any;
* `mapped pg`, `prot pg`: whether page number `pg` is mapped, and its protection;
* `bytes a`: the byte stored at address `a`. -/
structure State where
  thread_tls : Nat → Option Nat
  specific : Nat → Option Nat
  tlsHeap : Nat → Option TLS
  intHeap : Nat → Option Int
  mapped : Nat → Bool
  prot : Nat → Prot
  bytes : Nat → Nat

/-- State at program start, after `init_tls_key()`: no thread has a region and
no page of the modelled address space is mapped. -/
def State.init : State where
  thread_tls := fun _ => none
  specific := fun _ => none
  tlsHeap := fun _ => none
  intHeap := fun _ => none
  mapped := fun _ => false
  prot := fun _ => Prot.PROT_NONE
  bytes := fun _ => 0

/-- What the environment hands out to one call: the results of
`malloc(sizeof(TLS))`, of `mmap(NULL, ...)` and of `malloc(sizeof(int))`,
`none` standing for `NULL` / `MAP_FAILED`. -/
structure Env where
  mallocTLS : Option Nat
  mmapAddr : Option Nat
  mallocInt : Option Nat
deriving DecidableEq, Repr

/-- Result of a call: it returns the integer `r`, or it never returns to its
caller because an access raised `SIGSEGV` (`segfault_handler` either ends the
thread with `pthread_exit` or returns to the faulting instruction). -/
inductive Outcome where
  | ret (r : Int) (s : State)
  | fault (s : State)

/-- Returned integer, when the call returned. -/
def Outcome.code : Outcome → Option Int
  | .ret r _ => some r
  | .fault _ => none

/-- State left behind by the call. -/
def Outcome.state : Outcome → State
  | .ret _ s => s
  | .fault s => s

/-- Pointwise update of a table. -/
def upd {α : Type} (f : Nat → α) (k : Nat) (v : α) : Nat → α :=
  fun x => if x = k then v else f x

/-- Number of pages covering `len` bytes that start on a page boundary. -/
def npages (len : Nat) : Nat := (len + PAGE_SIZE - 1) / PAGE_SIZE

/-- Whether page `pg` is one of the `n` pages starting at page `first`. -/
def inPages (first n pg : Nat) : Bool := decide (first ≤ pg) && decide (pg < first + n)

/-- Number of consecutive mapped pages at the start of the `n` pages that begin
at page `first`. -/
def mappedRun (s : State) : Nat → Nat → Nat
  | _, 0 => 0
  | first, n + 1 => if s.mapped first then mappedRun s (first + 1) n + 1 else 0

/-- Linux `mprotect(addr, len, p)`: the returned integer and the state after
the call.  `EINVAL` (`-1`, nothing changed) when `addr` is not page aligned;
success without effect when `len = 0`; otherwise the pages of the range are
given protection `p` one after the other until the end of the range (result 0)
or the first unmapped page (`ENOMEM`, result `-1`, the pages before it keep the
new protection). -/
def mprotect (s : State) (addr len : Nat) (p : Prot) : Int × State :=
  if addr % PAGE_SIZE ≠ 0 then (-1, s)
  else if len = 0 then (0, s)
  else
    let k := mappedRun s (addr / PAGE_SIZE) (npages len)
    (if k = npages len then 0 else -1,
      { s with prot := fun pg => if inPages (addr / PAGE_SIZE) k pg then p else s.prot pg })

/-- `mmap(NULL, len, p, MAP_PRIVATE | MAP_ANONYMOUS, -1, 0)`; `res` is the
address chosen by the kernel.  `none` is `MAP_FAILED` (`EINVAL` for `len = 0`).
The new pages are zero filled. -/
def mmap (s : State) (res : Option Nat) (len : Nat) (p : Prot) : Option (Nat × State) :=
  if len = 0 then none
  else match res with
    | none => none
    | some a =>
      some (a, { s with
        mapped := fun pg => if inPages (a / PAGE_SIZE) (npages len) pg then true else s.mapped pg
        prot := fun pg => if inPages (a / PAGE_SIZE) (npages len) pg then p else s.prot pg
        bytes := fun x => if inPages (a / PAGE_SIZE) (npages len) (x / PAGE_SIZE) then 0 else s.bytes x })

/-- `munmap(addr, len)`; its return value is ignored by `tls_destroy`.
Nothing happens when `addr` is not page aligned or `len = 0` (`EINVAL`). -/
def munmap (s : State) (addr len : Nat) : State :=
  if addr % PAGE_SIZE ≠ 0 ∨ len = 0 then s
  else { s with mapped := fun pg => if inPages (addr / PAGE_SIZE) (npages len) pg then false else s.mapped pg }

/-- Page numbers touched by an access to `len` bytes at `addr`. -/
def touched (addr len : Nat) : List Nat :=
  if len = 0 then []
  else List.range' (addr / PAGE_SIZE) ((addr + len - 1) / PAGE_SIZE - addr / PAGE_SIZE + 1)

/-- Whether `len` bytes at `addr` can be loaded without a fault. -/
def canRead (s : State) (addr len : Nat) : Bool :=
  (touched addr len).all (fun pg => s.mapped pg && decide (s.prot pg ≠ Prot.PROT_NONE))

/-- Whether `len` bytes at `addr` can be stored without a fault. -/
def canWrite (s : State) (addr len : Nat) : Bool :=
  (touched addr len).all (fun pg => s.mapped pg && decide (s.prot pg = Prot.PROT_RW))

/-- Bytes of the address space after `memcpy(addr, buffer, len)`. -/
def storeBytes (bytes : Nat → Nat) (addr len : Nat) (buffer : List Nat) : Nat → Nat :=
  fun x => if addr ≤ x ∧ x < addr + len then buffer.getD (x - addr) 0 else bytes x

/-- The `len` bytes found at `addr`. -/
def loadBytes (bytes : Nat → Nat) (addr len : Nat) : List Nat :=
  (List.range len).map (fun i => bytes (addr + i))

/-- Bytes of the address space after `memcpy(dst, src, n)` between two areas. -/
def copyBytes (bytes : Nat → Nat) (dst src n : Nat) : Nat → Nat :=
  fun x => if dst ≤ x ∧ x < dst + n then bytes (src + (x - dst)) else bytes x

/-- `tls_create(size)` called by thread `t` (tls.c:32-54).  The result of the
second `malloc` is not checked: when it is `NULL` the store `*(tls->ref_count) = 1`
faults, and the record keeps the null pointer (written 0) as its `ref_count`. -/
def tls_create (e : Env) (t size : Nat) (s : State) : Outcome :=
  if size = 0 ∨ (s.thread_tls t).isSome then .ret (-1) s
  else match e.mallocTLS with
    | none => .ret (-1) s
    | some p =>
      match mmap s e.mmapAddr size Prot.PROT_NONE with
      | none => .ret (-1) s
      | some (a, s1) =>
        match e.mallocInt with
        | none => .fault { s1 with tlsHeap := upd s1.tlsHeap p (some ⟨size, a, 0⟩) }
        | some q =>
          .ret 0 { s1 with
            tlsHeap := upd s1.tlsHeap p (some ⟨size, a, q⟩)
            intHeap := upd s1.intHeap q (some 1)
            specific := upd s1.specific t (some p)
            thread_tls := upd s1.thread_tls t (some p) }

/-- `tls_write(offset, length, buffer)` called by thread `t` (tls.c:56-72).
The sum `offset + length` is computed in `unsigned int`.  A `thread_tls` that
points to no live record is a wild pointer; the model lets the access fault. -/
def tls_write (t offset length : Nat) (buffer : List Nat) (s : State) : Outcome :=
  match s.thread_tls t with
  | none => .ret (-1) s
  | some p =>
    match s.tlsHeap p with
    | none => .fault s
    | some tls =>
      if (offset + length) % UINT_MOD > tls.size then .ret (-1) s
      else
        let m1 := mprotect s (tls.data + offset) length Prot.PROT_RW
        if m1.1 = -1 then .ret (-1) m1.2
        else if canWrite m1.2 (tls.data + offset) length then
          let s2 := { m1.2 with bytes := storeBytes m1.2.bytes (tls.data + offset) length buffer }
          let m2 := mprotect s2 (tls.data + offset) length Prot.PROT_NONE
          if m2.1 = -1 then .ret (-1) m2.2 else .ret 0 m2.2
        else .fault m1.2

/-- Caller's buffer after `memcpy(buffer, src, length)` stored `got` into it. -/
def fillBuffer (buffer got : List Nat) : List Nat := got ++ buffer.drop got.length

/-- `tls_read(offset, length, buffer)` called by thread `t` (tls.c:74-90);
the second component is the caller's buffer after the call. -/
def tls_read (t offset length : Nat) (buffer : List Nat) (s : State) : Outcome × List Nat :=
  match s.thread_tls t with
  | none => (.ret (-1) s, buffer)
  | some p =>
    match s.tlsHeap p with
    | none => (.fault s, buffer)
    | some tls =>
      if (offset + length) % UINT_MOD > tls.size then (.ret (-1) s, buffer)
      else
        let m1 := mprotect s (tls.data + offset) length Prot.PROT_READ
        if m1.1 = -1 then (.ret (-1) m1.2, buffer)
        else if canRead m1.2 (tls.data + offset) length then
          let out := fillBuffer buffer (loadBytes m1.2.bytes (tls.data + offset) length)
          let m2 := mprotect m1.2 (tls.data + offset) length Prot.PROT_NONE
          if m2.1 = -1 then (.ret (-1) m2.2, out) else (.ret 0 m2.2, out)
        else (.fault m1.2, buffer)

/-- `tls_destroy()` called by thread `t` (tls.c:92-109). -/
def tls_destroy (t : Nat) (s : State) : Outcome :=
  match s.thread_tls t with
  | none => .ret (-1) s
  | some p =>
    match s.tlsHeap p with
    | none => .fault s
    | some tls =>
      match s.intHeap tls.ref_count with
      | none => .fault s
      | some c =>
        let s1 := { s with intHeap := upd s.intHeap tls.ref_count (some (c - 1)) }
        let s2 :=
          if c - 1 = 0 then
            { munmap s1 tls.data tls.size with
              intHeap := upd s1.intHeap tls.ref_count none
              tlsHeap := upd s1.tlsHeap p none }
          else s1
        .ret 0 { s2 with
          specific := upd s2.specific t none
          thread_tls := upd s2.thread_tls t none }

/-- The copy loop of tls.c:137-139, `i` being an `unsigned int`:
`for (i = i0; i < size; i += page_size) memcpy(dst + i, src + i, page_size)`.
`none` when an access faults (or the fuel is used up). -/
def cloneLoop : Nat → Nat → Nat → Nat → Nat → State → Option State
  | 0, _, _, _, _, _ => none
  | fuel + 1, i, size, dst, src, s =>
    if i < size then
      if canRead s (src + i) PAGE_SIZE && canWrite s (dst + i) PAGE_SIZE then
        cloneLoop fuel ((i + PAGE_SIZE) % UINT_MOD) size dst src
          { s with bytes := copyBytes s.bytes (dst + i) (src + i) PAGE_SIZE }
      else none
    else some s

/-- `tls_clone(tid)` called by thread `t` (tls.c:111-145).  The argument `tid`
is not used by the C code: the region to copy is looked up with
`pthread_getspecific(tls_key)`, that is, in the calling thread. -/
def tls_clone (e : Env) (t _tid : Nat) (s : State) : Outcome :=
  if (s.thread_tls t).isSome then .ret (-1) s
  else match s.specific t with
    | none => .ret (-1) s
    | some tp =>
      match s.tlsHeap tp with
      | none => .fault s
      | some target =>
        match e.mallocTLS with
        | none => .ret (-1) s
        | some cp =>
          match mmap s e.mmapAddr target.size Prot.PROT_READ with
          | none => .ret (-1) s
          | some (a, s1) =>
            match s1.intHeap target.ref_count with
            | none => .fault s1
            | some c =>
              let s2 := { s1 with
                tlsHeap := upd s1.tlsHeap cp (some ⟨target.size, a, target.ref_count⟩)
                intHeap := upd s1.intHeap target.ref_count (some (c + 1)) }
              match cloneLoop (npages target.size + 1) 0 target.size a target.data s2 with
              | none => .fault s2
              | some s3 =>
                .ret 0 { s3 with
                  specific := upd s3.specific t (some cp)
                  thread_tls := upd s3.thread_tls t (some cp) }

/-! ## Calls, traces and reachable states -/

/-- One call of the TLS interface by a thread, with what the environment hands
out to it. -/
inductive Call where
  | create (e : Env) (t size : Nat)
  | write (t offset length : Nat) (buffer : List Nat)
  | read (t offset length : Nat) (buffer : List Nat)
  | destroy (t : Nat)
  | clone (e : Env) (t tid : Nat)

/-- The calling thread. -/
def Call.thread : Call → Nat
  | .create _ t _ => t
  | .write t _ _ _ => t
  | .read t _ _ _ => t
  | .destroy t => t
  | .clone _ t _ => t

/-- Whether the call is one that binds its caller when it succeeds
(`tls_create`, `tls_clone`). -/
def Call.binds : Call → Bool
  | .create _ _ _ => true
  | .clone _ _ _ => true
  | _ => false

/-- Effect of one call on the process state. -/
def step (c : Call) (s : State) : Outcome :=
  match c with
  | .create e t size => tls_create e t size s
  | .write t o l b => tls_write t o l b s
  | .read t o l b => (tls_read t o l b s).1
  | .destroy t => tls_destroy t s
  | .clone e t tid => tls_clone e t tid s

/-- State after a sequence of calls. -/
def run : List Call → State → State
  | [], s => s
  | c :: cs, s => run cs (step c s).state

/-- Thread `b` makes no successful `tls_create` or `tls_clone` along the
sequence of calls started in `s`. -/
def NoBind (b : Nat) : List Call → State → Prop
  | [], _ => True
  | c :: cs, s =>
    (c.thread = b → c.binds = true → (step c s).code ≠ some 0) ∧ NoBind b cs (step c s).state

/-- What `malloc` and `mmap` guarantee about the storage they hand out for a
mapping of `len` bytes: the objects are not live and the pages, which start on
a page boundary, are not mapped. -/
def EnvOK (s : State) (e : Env) (len : Nat) : Prop :=
  (∀ p, e.mallocTLS = some p → s.tlsHeap p = none) ∧
  (∀ q, e.mallocInt = some q → s.intHeap q = none) ∧
  (∀ a, e.mmapAddr = some a →
    a % PAGE_SIZE = 0 ∧ ∀ pg, inPages (a / PAGE_SIZE) (npages len) pg = true → s.mapped pg = false)

/-- A call the process can really make in state `s`: the `unsigned int`
arguments are below `2^32`, the caller's buffer holds `length` bytes, and the
environment behaves as `EnvOK` says. -/
def CallOK (s : State) : Call → Prop
  | .create e _ size => size < UINT_MOD ∧ EnvOK s e size
  | .write _ o l b => o < UINT_MOD ∧ l < UINT_MOD ∧ l ≤ b.length
  | .read _ o l b => o < UINT_MOD ∧ l < UINT_MOD ∧ l ≤ b.length
  | .destroy _ => True
  | .clone e t _ => ∀ tp r, s.specific t = some tp → s.tlsHeap tp = some r → EnvOK s e r.size

/-- States the process can be in: the initial state and what calls make of it. -/
inductive Reachable : State → Prop
  | init : Reachable State.init
  | step {s : State} (c : Call) : Reachable s → CallOK s c → Reachable (step c s).state

/-- Thread `t` is bound to the live record `r` at address `p`, whose counter
holds `c` and whose mapping starts on a page boundary. -/
def BoundTo (s : State) (t p : Nat) (r : TLS) (c : Int) : Prop :=
  s.thread_tls t = some p ∧ s.tlsHeap p = some r ∧ s.intHeap r.ref_count = some c ∧
    r.data % PAGE_SIZE = 0 ∧ 0 < r.size

/-- The pages of the mapping of record `r`. -/
def regionPages (r : TLS) (pg : Nat) : Bool :=
  inPages (r.data / PAGE_SIZE) (npages r.size) pg

/-- Well-formedness of the bindings: the value under `tls_key` mirrors
`thread_tls`; a bound thread points to a live record with a live counter equal
to 1 and a mapped, page-aligned, non-empty area; and two bound threads share
neither record, counter nor page. -/
def Inv (s : State) : Prop :=
  (∀ t, s.specific t = s.thread_tls t) ∧
  (∀ t p, s.thread_tls t = some p →
    ∃ r, s.tlsHeap p = some r ∧ s.intHeap r.ref_count = some 1 ∧
      r.data % PAGE_SIZE = 0 ∧ 0 < r.size ∧ r.size < UINT_MOD ∧
      ∀ pg, regionPages r pg = true → s.mapped pg = true) ∧
  (∀ t u p q r1 r2, t ≠ u → s.thread_tls t = some p → s.thread_tls u = some q →
    s.tlsHeap p = some r1 → s.tlsHeap q = some r2 →
    p ≠ q ∧ r1.ref_count ≠ r2.ref_count ∧
      ∀ pg, regionPages r1 pg = true → regionPages r2 pg = false)

/-! ## Concrete scenarios -/

/-- Storage handed out to thread 0 (thread A). -/
def envA : Env := ⟨some 1, some 0x10000, some 2⟩

/-- Storage handed out to thread 1 (thread B). -/
def envB : Env := ⟨some 3, some 0x20000, some 4⟩

/-- Storage handed out to thread 1 for a region that ends up directly above
the mapping of thread 0. -/
def envAbove : Env := ⟨some 3, some 0x11000, some 4⟩

/-- The 16 bytes of "HELLOWORLD!!!!!!". -/
def helloWorld : List Nat := [72, 69, 76, 76, 79, 87, 79, 82, 76, 68, 33, 33, 33, 33, 33, 33]

/-- The 5 bytes of "XXXXX". -/
def xxxxx : List Nat := [88, 88, 88, 88, 88]

/-- The 5 bytes of "HELLO". -/
def hello : List Nat := [72, 69, 76, 76, 79]

/-- Thread 0 has created a 16-byte region. -/
def stA16 : State := (tls_create envA 0 16 State.init).state

/-- Thread 0 has created a 16-byte region and written "HELLOWORLD!!!!!!" at offset 0. -/
def stHello : State := (tls_write 0 0 16 helloWorld stA16).state

/-- Thread 1 has created a region of `2^32 - 1` bytes at `0x11000`, then thread
0 a region of 4096 bytes at `0x10000`, the page right below it. -/
def stAbove : State :=
  (tls_create envA 0 4096 (tls_create envAbove 1 0xFFFFFFFF State.init).state).state

/-- Thread 0 creates a region and writes to it, while thread 1 only makes
calls that fail: a clone, a write and a destroy. -/
def traceA : List Call :=
  [.create envA 0 16, .clone envB 1 0, .write 0 0 16 helloWorld, .write 1 0 5 xxxxx, .destroy 1]

/-- Every mapped page has no access permission. -/
def ProtInv (s : State) : Prop := ∀ pg, s.mapped pg = true → s.prot pg = Prot.PROT_NONE

/-- Every page of the mapping of every region a thread is bound to has no
access permission. -/
def ClosedPages (s : State) : Prop :=
  ∀ t p r pg, s.thread_tls t = some p → s.tlsHeap p = some r → regionPages r pg = true →
    s.prot pg = Prot.PROT_NONE

/-- The `unsigned int` sum `offset + length` of a `tls_write` or `tls_read`
does not wrap around. -/
def NoWrap : Call → Prop
  | .write _ o l _ => o + l < UINT_MOD
  | .read _ o l _ => o + l < UINT_MOD
  | _ => True

/-- Every call of the sequence started in `s` is one the process can make and
none lets `offset + length` wrap around. -/
def CallsNoWrap : List Call → State → Prop
  | [], _ => True
  | c :: cs, s => CallOK s c ∧ NoWrap c ∧ CallsNoWrap cs (step c s).state

/-- Thread 0 has created a region of 8192 bytes, two pages at `0x10000`. -/
def stA8192 : State := (tls_create envA 0 8192 State.init).state

/-- A length that makes `4096 + length` equal to `2^32`. -/
def wrapLen : Nat := 0xFFFFF000

/-- A caller's buffer of `wrapLen` bytes. -/
def wrapBuf : List Nat := List.replicate wrapLen 0

end Tls

/-! # User-level threads (`threads.c`)

A shallow embedding of the thread library of `threads.c` at the level of the
table of thread control blocks: the array `threads`, the counters
`next_thread_id` and `current_thread_id`, and the flag `is_first_call` of
`pthread_create`.  The execution contexts (`jmp_buf`, registers, stacks) are
left out: `setjmp` is taken on the path where it returns 0, which is the path
of every direct call, and `longjmp` only moves control to the thread that the
table already names as current.
-/

namespace Threads

/-- Capacity of the table: `#define MAX_THREADS 128` (threads.c:10). -/
def MAX_THREADS : Nat := 128

/-- The `enum thread_status` of threads.c:18-23.  `TS_EXITED` is the first
enumerator, so it is the value of a zero-initialised status. -/
inductive thread_status where
  | TS_EXITED
  | TS_RUNNING
  | TS_READY
deriving DecidableEq, Repr

/-- The `struct thread_control_block` of threads.c:29-35 without its `jmp_buf`:
`stack` is the pointer kept in the block (`none` is `NULL`), `exit_status` the
`void *` given to `pthread_exit` (0 is `NULL`). -/
structure thread_control_block where
  exited : Bool
  status : thread_status
  stack : Option Nat
  exit_status : Nat
deriving DecidableEq, Repr

/-- A zero-initialised control block, as every element of the static array
`threads` is at program start. -/
def zeroTCB : thread_control_block := ⟨false, thread_status.TS_EXITED, none, 0⟩

/-- The static variables of threads.c: the table `threads` (only the indices
below `MAX_THREADS` belong to the array), `next_thread_id`,
`current_thread_id`, the flag `is_first_call` of `pthread_create`, and the
pointers that were handed to `free`, latest first. -/
structure Sched where
  threads : Nat → thread_control_block
  next_thread_id : Nat
  current_thread_id : Nat
  is_first_call : Bool
  freed : List Nat

/-- State at program start. -/
def Sched.init : Sched where
  threads := fun _ => zeroTCB
  next_thread_id := 0
  current_thread_id := 0
  is_first_call := true
  freed := []

/-- Replace one element of the table. -/
def setTCB (th : Nat → thread_control_block) (i : Nat) (b : thread_control_block) :
    Nat → thread_control_block :=
  fun j => if j = i then b else th j

/-- The table with the status of element `i` set to `st`. -/
def setStatus (th : Nat → thread_control_block) (i : Nat) (st : thread_status) :
    Nat → thread_control_block :=
  setTCB th i { th i with status := st }

/-- The loop of threads.c:48-50: starting at `i`, advance cyclically while the
status is `TS_EXITED`.  `none` when no slot is found within `fuel` tests. -/
def findNext (th : Nat → thread_control_block) : Nat → Nat → Option Nat
  | 0, _ => none
  | fuel + 1, i =>
    if (th i).status = thread_status.TS_EXITED then findNext th fuel ((i + 1) % MAX_THREADS)
    else some i

/-- Modelled from the spec: `save_thread_state` (threads.c:45) is declared in
`ec440threads.h`, which is not part of the sources; the spec has the scheduler
capture the execution context of the running block at this point, so the
fields modelled here are left as they are. -/
@[reducible] def save_thread_state (th : Nat → thread_control_block) (_i : Nat) :
    Nat → thread_control_block := th

/-- Modelled from the spec: `restore_thread_state` (threads.c:53) is declared
in `ec440threads.h`, which is not part of the sources; the spec has the
scheduler restore the execution context of the chosen block at this point, so
the fields modelled here are left as they are. -/
@[reducible] def restore_thread_state (th : Nat → thread_control_block) (_i : Nat) :
    Nat → thread_control_block := th

/-- `schedule(signal)` (threads.c:41-58) on the path where `setjmp` returns 0.
`none` when the scan for the next thread does not end: the statuses do not
change during the scan and the index has period `MAX_THREADS`, so a scan that
finds nothing in `MAX_THREADS` tests never ends. -/
def schedule (s : Sched) : Option Sched :=
  if (s.threads s.current_thread_id).status ≠ thread_status.TS_EXITED then
    let th1 := save_thread_state
      (setStatus s.threads s.current_thread_id thread_status.TS_READY) s.current_thread_id
    match findNext th1 MAX_THREADS ((s.current_thread_id + 1) % MAX_THREADS) with
    | none => none
    | some n =>
      some { s with
        threads := restore_thread_state (setStatus th1 n thread_status.TS_RUNNING) n
        current_thread_id := n }
  else some s

/-- `scheduler_init()` (threads.c:64-83), the part that touches the table. -/
def scheduler_init (s : Sched) : Sched :=
  { s with
    threads := setTCB s.threads 0
      { s.threads 0 with exited := false, status := thread_status.TS_RUNNING, stack := none } }

/-- `pthread_create(thread, attr, start_routine, arg)` (threads.c:85-121);
`stack` is the result of `malloc(THREAD_STACK_SIZE)`.  The result is the
returned integer, the value stored in `*thread` (`none` when nothing is
stored) and the state after the call. -/
def pthread_create (stack : Option Nat) (s : Sched) : Int × Option Nat × Sched :=
  let s1 := if s.is_first_call then scheduler_init { s with is_first_call := false } else s
  if s1.next_thread_id ≥ MAX_THREADS then (-1, none, s1)
  else match stack with
    | none => (-1, none, s1)
    | some p =>
      (0, some s1.next_thread_id,
        { s1 with
          next_thread_id := s1.next_thread_id + 1
          threads := setTCB s1.threads s1.next_thread_id
            { s1.threads s1.next_thread_id with
              exited := false, status := thread_status.TS_READY, stack := some p } })

/-- `pthread_exit(value_ptr)` (threads.c:123-130): the stack pointer of the
current block is handed to `free` (nothing happens for `NULL`), the block is
flagged and given its exit value, and `schedule` is called.  `none` when
`schedule` does not return. -/
def pthread_exit (value_ptr : Nat) (s : Sched) : Option Sched :=
  let c := s.current_thread_id
  schedule { s with
    freed := match (s.threads c).stack with
      | none => s.freed
      | some p => p :: s.freed
    threads := setTCB s.threads c
      { s.threads c with exited := true, exit_status := value_ptr } }

/-- `pthread_self()` (threads.c:132-134). -/
def pthread_self (s : Sched) : Nat := s.current_thread_id

/-- What a call of `pthread_join` does in a given state: it returns, it is
still in its waiting loop, or it indexes the table outside its bounds. -/
inductive JoinResult where
  | returned (r : Int) (retval : Option Nat)
  | waiting
  | outOfBounds
deriving DecidableEq, Repr

/-- `pthread_join(thread, retval)` (threads.c:136-146) observed in state `s`.
`retval` is `none` for a `NULL` pointer and `some x` for a pointer to a cell
holding `x`; the result carries the cell after the call.  The index `thread` is
used without any check. -/
def pthread_join (thread : Nat) (retval : Option Nat) (s : Sched) : JoinResult :=
  if thread ≥ MAX_THREADS then .outOfBounds
  else if (s.threads thread).exited = false then .waiting
  else .returned 0 (retval.map (fun _ => (s.threads thread).exit_status))

/-- One invocation of the library: `pthread_create` with the result of its
`malloc`, `pthread_exit` with its argument, or `schedule` run by the timer. -/
inductive Op where
  | create (stack : Option Nat)
  | exit (v : Nat)
  | tick
deriving DecidableEq, Repr

/-- Whether the invocation is a `pthread_exit`. -/
def Op.isExit : Op → Bool
  | .exit _ => true
  | _ => false

/-- State after one invocation made by the current thread. -/
def apply : Op → Sched → Option Sched
  | .create stack, s => some (pthread_create stack s).2.2
  | .exit v, s => pthread_exit v s
  | .tick, s => schedule s

/-- State after a sequence of invocations. -/
def runOps : List Op → Sched → Option Sched
  | [], s => some s
  | op :: ops, s => (apply op s).bind (runOps ops)

/-- Number of calls of `pthread_create` that return 0 along the run of `ops`
from `s`. -/
def successes : List Op → Sched → Nat
  | [], _ => 0
  | op :: ops, s =>
    (match op with
      | .create stack => if (pthread_create stack s).1 = 0 then 1 else 0
      | _ => 0) +
    (match apply op s with
      | none => 0
      | some s1 => successes ops s1)

/-- No `pthread_exit` is called while slot `T` is current along the run of
`ops` from `s`. -/
def NoExitBy (T : Nat) : List Op → Sched → Prop
  | [], _ => True
  | op :: ops, s =>
    (∀ v, op = .exit v → s.current_thread_id ≠ T) ∧
    (match apply op s with
      | none => True
      | some s1 => NoExitBy T ops s1)

/-- A call of `pthread_join` that finds the table in the states `obs`, one
after the other, while it runs: what it does in the first state that ends its
waiting loop. -/
def joinOver (thread : Nat) (retval : Option Nat) : List Sched → JoinResult
  | [] => .waiting
  | s :: rest =>
    match pthread_join thread retval s with
    | .waiting => joinOver thread retval rest
    | r => r

/-- States the library can be in: the initial state and what invocations make
of it. -/
inductive SchedReachable : Sched → Prop
  | init : SchedReachable Sched.init
  | step {s s1 : Sched} (op : Op) : SchedReachable s → apply op s = some s1 → SchedReachable s1

/-- What holds in every reachable state: the current slot and the counter stay
within the table; before `scheduler_init` has run nothing has been created,
slot 0 is current and every status is `TS_EXITED`; afterwards the status of the
current slot is not `TS_EXITED`; a slot with status `TS_RUNNING` is the current
one; and the slots from `next_thread_id` on, slot 0 apart, are still zero. -/
def SchedInv (s : Sched) : Prop :=
  s.current_thread_id < MAX_THREADS ∧
  s.next_thread_id ≤ MAX_THREADS ∧
  (s.is_first_call = true → s.next_thread_id = 0 ∧ s.current_thread_id = 0 ∧
    ∀ i, (s.threads i).status = thread_status.TS_EXITED) ∧
  (s.is_first_call = false →
    (s.threads s.current_thread_id).status ≠ thread_status.TS_EXITED) ∧
  (∀ i, (s.threads i).status = thread_status.TS_RUNNING → i = s.current_thread_id) ∧
  (∀ i, s.next_thread_id ≤ i → 0 < i → s.threads i = zeroTCB)

/-- Whether slot `i` has a status other than `TS_EXITED`. -/
def alive (s : Sched) (i : Nat) : Bool :=
  decide ((s.threads i).status ≠ thread_status.TS_EXITED)

/-- The slots of the table with a status other than `TS_EXITED`, in index order. -/
def aliveSlots (s : Sched) : List Nat := (List.range MAX_THREADS).filter (alive s)

/-- The slots met on the cyclic walk `c + d + 1, ..., c + d + m` that satisfy
`A`, in the order of the walk. -/
def walkHits (A : Nat → Bool) (c d m : Nat) : List Nat :=
  ((List.range' (d + 1) m).map (fun x => (c + x) % MAX_THREADS)).filter A

/-- The values of `current_thread_id` after each of `n` consecutive
invocations of `schedule`; `none` when one of them does not return. -/
def currentsAfter : Nat → Sched → Option (List Nat)
  | 0, _ => some []
  | n + 1, s =>
    match schedule s with
    | none => none
    | some s1 => (currentsAfter n s1).map (fun l => s1.current_thread_id :: l)

/-! ## Concrete scenarios -/

/-- The initial thread has called `pthread_create` once. -/
def stOne : Sched := (pthread_create (some 1000) Sched.init).2.2

/-- The initial thread has called `pthread_create` twice. -/
def stTwo : Sched := (pthread_create (some 2000) stOne).2.2

/-- After two calls of `pthread_create` the timer has run `schedule` once:
slot 1 is current. -/
def stRun : Sched := (schedule stTwo).getD stTwo

/-- Slot 1 has then called `pthread_exit(7)`. -/
def stExited : Sched := (pthread_exit 7 stRun).getD stRun

/-- What follows the exit of slot 1: `schedule`, a third `pthread_create`, `schedule`. -/
def opsLater : List Op := [.tick, .create (some 3000), .tick]

/-- State after the exit of slot 1 and the invocations `opsLater`. -/
def stLater : Sched := (runOps opsLater stExited).getD stExited

/-- `MAX_THREADS` calls of `pthread_create`, then `schedule` and a
`pthread_exit` of the thread it made current. -/
def opsFull : List Op := List.replicate 128 (.create (some 1000)) ++ [.tick, .exit 7]

/-- State after the invocations `opsFull`. -/
def stFull : Sched := (runOps opsFull Sched.init).getD Sched.init

end Threads

namespace Tls

/-! ## General facts about the calls -/

/-- An unbound caller gets `-1` from `tls_write`, and nothing changes. -/
theorem tls_write_unbound (t o l : Nat) (b : List Nat) (s : State) (h : s.thread_tls t = none) :
    tls_write t o l b s = .ret (-1) s := by
  simp [tls_write, h]

/-- An unbound caller gets `-1` from `tls_read`; state and buffer are unchanged. -/
theorem tls_read_unbound (t o l : Nat) (b : List Nat) (s : State) (h : s.thread_tls t = none) :
    tls_read t o l b s = (.ret (-1) s, b) := by
  simp [tls_read, h]

/-- An unbound caller gets `-1` from `tls_destroy`, and nothing changes. -/
theorem tls_destroy_unbound (t : Nat) (s : State) (h : s.thread_tls t = none) :
    tls_destroy t s = .ret (-1) s := by
  simp [tls_destroy, h]

/-- A bound caller gets `-1` from `tls_clone`, and nothing changes. -/
theorem tls_clone_bound (e : Env) (t tid : Nat) (s : State) (h : s.thread_tls t ≠ none) :
    tls_clone e t tid s = .ret (-1) s := by
  have : (s.thread_tls t).isSome = true := by
    cases hq : s.thread_tls t with
    | none => exact absurd hq h
    | some p => rfl
  simp [tls_clone, this]

/-- A caller with nothing stored under `tls_key` gets `-1` from `tls_clone`. -/
theorem tls_clone_no_specific (e : Env) (t tid : Nat) (s : State) (h : s.specific t = none) :
    tls_clone e t tid s = .ret (-1) s := by
  unfold tls_clone
  split
  · rfl
  · simp [h]

/-- Without unsigned wrap-around, an out-of-range `tls_write` is rejected by
the bounds check and changes nothing. -/
theorem tls_write_out_of_range (t o l p : Nat) (r : TLS) (b : List Nat) (s : State)
    (hb : s.thread_tls t = some p) (hr : s.tlsHeap p = some r)
    (hw : o + l < UINT_MOD) (hgt : r.size < o + l) :
    tls_write t o l b s = .ret (-1) s := by
  have : (o + l) % UINT_MOD = o + l := Nat.mod_eq_of_lt hw
  simp [tls_write, hb, hr, this, hgt]

/-- Without unsigned wrap-around, an out-of-range `tls_read` is rejected by
the bounds check; state and buffer are unchanged. -/
theorem tls_read_out_of_range (t o l p : Nat) (r : TLS) (b : List Nat) (s : State)
    (hb : s.thread_tls t = some p) (hr : s.tlsHeap p = some r)
    (hw : o + l < UINT_MOD) (hgt : r.size < o + l) :
    tls_read t o l b s = (.ret (-1) s, b) := by
  have : (o + l) % UINT_MOD = o + l := Nat.mod_eq_of_lt hw
  simp [tls_read, hb, hr, this, hgt]

/-- `mprotect` changes protections only, whatever it returns. -/
theorem mprotect_frame (s : State) (a l : Nat) (p : Prot) :
    (mprotect s a l p).2.thread_tls = s.thread_tls ∧ (mprotect s a l p).2.specific = s.specific ∧
      (mprotect s a l p).2.tlsHeap = s.tlsHeap ∧ (mprotect s a l p).2.intHeap = s.intHeap ∧
      (mprotect s a l p).2.mapped = s.mapped ∧ (mprotect s a l p).2.bytes = s.bytes := by
  unfold mprotect
  split
  · simp
  · split <;> simp

/-- `tls_write` never changes a binding, a record, a counter or the set of mapped pages. -/
theorem tls_write_frame (t o l : Nat) (b : List Nat) (s : State) :
    (tls_write t o l b s).state.thread_tls = s.thread_tls ∧
    (tls_write t o l b s).state.specific = s.specific ∧
    (tls_write t o l b s).state.tlsHeap = s.tlsHeap ∧
    (tls_write t o l b s).state.intHeap = s.intHeap ∧
    (tls_write t o l b s).state.mapped = s.mapped := by
  unfold tls_write
  split
  · simp [Outcome.state]
  · split
    · simp [Outcome.state]
    · split
      · simp [Outcome.state]
      · dsimp only
        split
        · simp [Outcome.state, mprotect_frame]
        · split
          · split <;> simp [Outcome.state, mprotect_frame]
          · simp [Outcome.state, mprotect_frame]

/-- `tls_read` never changes a binding, a record, a counter, the set of mapped
pages or a byte of the address space. -/
theorem tls_read_frame (t o l : Nat) (b : List Nat) (s : State) :
    (tls_read t o l b s).1.state.thread_tls = s.thread_tls ∧
    (tls_read t o l b s).1.state.specific = s.specific ∧
    (tls_read t o l b s).1.state.tlsHeap = s.tlsHeap ∧
    (tls_read t o l b s).1.state.intHeap = s.intHeap ∧
    (tls_read t o l b s).1.state.mapped = s.mapped ∧
    (tls_read t o l b s).1.state.bytes = s.bytes := by
  unfold tls_read
  split
  · simp [Outcome.state]
  · split
    · simp [Outcome.state]
    · split
      · simp [Outcome.state]
      · dsimp only
        split
        · simp [Outcome.state, mprotect_frame]
        · split
          · split <;> simp [Outcome.state, mprotect_frame]
          · simp [Outcome.state, mprotect_frame]

/-- What a successful `mmap` changes: only the page table and the bytes. -/
theorem mmap_frame {s s1 : State} {res : Option Nat} {len a : Nat} {p : Prot}
    (h : mmap s res len p = some (a, s1)) :
    res = some a ∧ len ≠ 0 ∧ s1.thread_tls = s.thread_tls ∧ s1.specific = s.specific ∧
      s1.tlsHeap = s.tlsHeap ∧ s1.intHeap = s.intHeap ∧
      (∀ pg, s1.mapped pg = if inPages (a / PAGE_SIZE) (npages len) pg then true else s.mapped pg) ∧
      (∀ pg, s1.prot pg = if inPages (a / PAGE_SIZE) (npages len) pg then p else s.prot pg) := by
  unfold mmap at h
  split at h
  · cases h
  · rename_i hl
    split at h
    · cases h
    · rename_i a0
      simp only [Option.some.injEq, Prod.mk.injEq] at h
      obtain ⟨h1, h2⟩ := h
      subst h1
      subst h2
      simp [hl]

/-- The copy loop of `tls_clone` changes bytes only. -/
theorem cloneLoop_frame (fuel : Nat) : ∀ (i size dst src : Nat) (s s1 : State),
    cloneLoop fuel i size dst src s = some s1 →
    s1.thread_tls = s.thread_tls ∧ s1.specific = s.specific ∧ s1.tlsHeap = s.tlsHeap ∧
      s1.intHeap = s.intHeap ∧ s1.mapped = s.mapped ∧ s1.prot = s.prot := by
  induction fuel with
  | zero => intro i size dst src s s1 h; simp [cloneLoop] at h
  | succ n ih =>
    intro i size dst src s s1 h
    unfold cloneLoop at h
    split at h
    · split at h
      · have := ih _ _ _ _ _ _ h
        simpa using this
      · cases h
    · cases h
      simp

/-- The copy loop of `tls_clone` faults at once when the destination page is
not writable and there is something to copy. -/
theorem cloneLoop_faults (fuel size dst src : Nat) (s : State) (hs : 0 < size)
    (hp : s.prot (dst / PAGE_SIZE) ≠ Prot.PROT_RW) :
    cloneLoop fuel 0 size dst src s = none := by
  cases fuel with
  | zero => rfl
  | succ n =>
    unfold cloneLoop
    have hw : canWrite s dst PAGE_SIZE = false := by
      have hmem : dst / PAGE_SIZE ∈ touched dst PAGE_SIZE := by
        simp [touched, PAGE_SIZE, List.mem_range']
      unfold canWrite
      rw [List.all_eq_false]
      exact ⟨_, hmem, by simp [hp]⟩
    simp [hs, hw]

/-- A non-empty mapping has at least one page. -/
theorem npages_pos {len : Nat} (h : len ≠ 0) : 0 < npages len := by
  unfold npages PAGE_SIZE
  omega

/-- The first page of a non-empty page range belongs to it. -/
theorem inPages_first {first n : Nat} (h : 0 < n) : inPages first n first = true := by
  simp [inPages, h]

/-- In no state at all does `tls_clone` return 0: the destination mapping is
created with `PROT_READ`, so the first `memcpy` into it faults. -/
theorem tls_clone_code_ne_zero (e : Env) (t tid : Nat) (s : State) :
    (tls_clone e t tid s).code ≠ some 0 := by
  unfold tls_clone
  split
  · simp [Outcome.code]
  · split
    · simp [Outcome.code]
    · split
      · simp [Outcome.code]
      · split
        · simp [Outcome.code]
        · split
          · simp [Outcome.code]
          · rename_i a s1 hm
            obtain ⟨_, hlen, _, _, _, _, _, hprot⟩ := mmap_frame hm
            split
            · simp [Outcome.code]
            · dsimp only
              rw [cloneLoop_faults]
              · simp [Outcome.code]
              · omega
              · have hp := hprot (a / PAGE_SIZE)
                rw [inPages_first (npages_pos hlen)] at hp
                simp [hp]

/-- `tls_create` changes the binding of its caller only. -/
theorem tls_create_other (e : Env) (t size : Nat) (s : State) (u : Nat) (hu : u ≠ t) :
    (tls_create e t size s).state.thread_tls u = s.thread_tls u ∧
    (tls_create e t size s).state.specific u = s.specific u := by
  unfold tls_create
  split
  · simp [Outcome.state]
  · split
    · simp [Outcome.state]
    · split
      · simp [Outcome.state]
      · rename_i a s1 hm
        obtain ⟨_, _, h1, h2, _⟩ := mmap_frame hm
        split <;> simp [Outcome.state, upd, hu, h1, h2]

/-- A `tls_create` that does not return 0 changes no binding. -/
theorem tls_create_fail_binding (e : Env) (t size : Nat) (s : State)
    (h : (tls_create e t size s).code ≠ some 0) :
    (tls_create e t size s).state.thread_tls = s.thread_tls ∧
    (tls_create e t size s).state.specific = s.specific := by
  revert h
  unfold tls_create
  split
  · simp [Outcome.state]
  · split
    · simp [Outcome.state]
    · split
      · simp [Outcome.state]
      · rename_i a s1 hm
        obtain ⟨_, _, h1, h2, _⟩ := mmap_frame hm
        split <;> simp [Outcome.state, Outcome.code, h1, h2]

/-- `munmap` changes the page table only. -/
theorem munmap_frame (s : State) (a l : Nat) :
    (munmap s a l).thread_tls = s.thread_tls ∧ (munmap s a l).specific = s.specific ∧
      (munmap s a l).tlsHeap = s.tlsHeap ∧ (munmap s a l).intHeap = s.intHeap ∧
      (munmap s a l).prot = s.prot ∧ (munmap s a l).bytes = s.bytes := by
  unfold munmap
  split <;> simp

/-- `tls_destroy` changes the binding of its caller only, and only to unbound. -/
theorem tls_destroy_binding (t : Nat) (s : State) (u : Nat) :
    ((tls_destroy t s).state.thread_tls u = s.thread_tls u ∨
      (tls_destroy t s).state.thread_tls u = none) ∧
    ((tls_destroy t s).state.specific u = s.specific u ∨
      (tls_destroy t s).state.specific u = none) := by
  unfold tls_destroy
  split
  · simp [Outcome.state]
  · split
    · simp [Outcome.state]
    · split
      · simp [Outcome.state]
      · by_cases hu : u = t
        · subst hu
          simp [Outcome.state, upd]
        · dsimp only
          split <;> simp [Outcome.state, upd, hu, (munmap_frame _ _ _).1, (munmap_frame _ _ _).2.1]

/-- `tls_clone` changes no binding unless it returns 0. -/
theorem tls_clone_binding (e : Env) (t tid : Nat) (s : State) :
    (tls_clone e t tid s).state.thread_tls = s.thread_tls ∧
    (tls_clone e t tid s).state.specific = s.specific := by
  have h0 := tls_clone_code_ne_zero e t tid s
  revert h0
  unfold tls_clone
  split
  · simp [Outcome.state]
  · split
    · simp [Outcome.state]
    · split
      · simp [Outcome.state]
      · split
        · simp [Outcome.state]
        · split
          · simp [Outcome.state]
          · rename_i a s1 hm
            obtain ⟨_, _, h1, h2, _⟩ := mmap_frame hm
            split
            · simp [Outcome.state, h1, h2]
            · dsimp only
              split
              · simp [Outcome.state, h1, h2]
              · simp [Outcome.code]

/-- A call leaves an unbound thread unbound, unless it is a successful
`tls_create` or `tls_clone` of that thread. -/
theorem step_keeps_unbound (b : Nat) (c : Call) (s : State) (h : s.thread_tls b = none)
    (hc : c.thread = b → c.binds = true → (step c s).code ≠ some 0) :
    (step c s).state.thread_tls b = none := by
  cases c with
  | create e t size =>
    by_cases ht : t = b
    · have hfail := hc ht rfl
      have := (tls_create_fail_binding e t size s hfail).1
      simp only [step]
      rw [this]
      exact h
    · have := (tls_create_other e t size s b (fun hbt => ht hbt.symm)).1
      simp only [step]
      rw [this]
      exact h
  | write t o l buf =>
    simp only [step]
    rw [(tls_write_frame t o l buf s).1]
    exact h
  | read t o l buf =>
    simp only [step]
    rw [(tls_read_frame t o l buf s).1]
    exact h
  | destroy t =>
    simp only [step]
    rcases (tls_destroy_binding t s b).1 with h1 | h1
    · rw [h1]; exact h
    · exact h1
  | clone e t tid =>
    simp only [step]
    rw [(tls_clone_binding e t tid s).1]
    exact h

/-- A thread that is unbound and makes no successful `tls_create` or
`tls_clone` is unbound after the whole sequence of calls. -/
theorem run_keeps_unbound (b : Nat) (cs : List Call) : ∀ (s : State),
    s.thread_tls b = none → NoBind b cs s → (run cs s).thread_tls b = none := by
  induction cs with
  | nil => intro s h _; exact h
  | cons c cs ih =>
    intro s h hn
    obtain ⟨h1, h2⟩ := hn
    exact ih _ (step_keeps_unbound b c s h h1) h2

/-- Every call keeps the value stored under `tls_key` equal to `thread_tls`. -/
theorem step_specific_eq (c : Call) (s : State) (h : ∀ t, s.specific t = s.thread_tls t) :
    ∀ t, (step c s).state.specific t = (step c s).state.thread_tls t := by
  intro u
  cases c with
  | create e t size =>
    simp only [step]
    unfold tls_create
    split
    · exact h u
    · split
      · exact h u
      · split
        · exact h u
        · rename_i a s1 hm
          obtain ⟨_, _, h1, h2, _⟩ := mmap_frame hm
          split
          · simp [Outcome.state, h1, h2, h u]
          · simp [Outcome.state, h1, h2, h u, upd]
  | write t o l buf =>
    simp only [step]
    rw [(tls_write_frame t o l buf s).1, (tls_write_frame t o l buf s).2.1]
    exact h u
  | read t o l buf =>
    simp only [step]
    rw [(tls_read_frame t o l buf s).1, (tls_read_frame t o l buf s).2.1]
    exact h u
  | destroy t =>
    simp only [step]
    unfold tls_destroy
    split
    · exact h u
    · split
      · exact h u
      · split
        · exact h u
        · dsimp only
          split <;>
            simp [Outcome.state, upd, (munmap_frame _ _ _).1, (munmap_frame _ _ _).2.1, h u]
  | clone e t tid =>
    simp only [step]
    rw [(tls_clone_binding e t tid s).1, (tls_clone_binding e t tid s).2]
    exact h u

/-- In every reachable state the value stored under `tls_key` in a thread is
that thread's `thread_tls`. -/
theorem reachable_specific_eq {s : State} (h : Reachable s) :
    ∀ t, s.specific t = s.thread_tls t := by
  induction h with
  | init => intro t; rfl
  | step c _ _ ih => exact step_specific_eq c _ ih

/-- In every reachable state `tls_clone` returns `-1` and changes nothing,
whoever calls it and whatever thread it names. -/
theorem tls_clone_reachable {s : State} (h : Reachable s) (e : Env) (t tid : Nat) :
    tls_clone e t tid s = .ret (-1) s := by
  by_cases hb : s.thread_tls t = none
  · exact tls_clone_no_specific e t tid s (by rw [reachable_specific_eq h t]; exact hb)
  · exact tls_clone_bound e t tid s hb

/-- The well-formedness of the bindings depends on the bindings, the records,
the counters and the set of mapped pages only. -/
theorem Inv_of_frame {s s1 : State} (h1 : s1.thread_tls = s.thread_tls)
    (h2 : s1.specific = s.specific) (h3 : s1.tlsHeap = s.tlsHeap)
    (h4 : s1.intHeap = s.intHeap) (h5 : s1.mapped = s.mapped) (h : Inv s) : Inv s1 := by
  unfold Inv
  rw [h1, h2, h3, h4, h5]
  exact h

/-- The initial state is well formed. -/
theorem Inv_init : Inv State.init := by
  refine ⟨fun _ => rfl, ?_, ?_⟩
  · intro t p h
    simp [State.init] at h
  · intro t u p q r1 r2 _ h
    simp [State.init] at h

/-- `tls_create` keeps the bindings well formed. -/
theorem Inv_tls_create (e : Env) (t size : Nat) (s : State) (h : Inv s)
    (hok : size < UINT_MOD ∧ EnvOK s e size) : Inv (tls_create e t size s).state := by
  obtain ⟨hsz, hfreshP, hfreshQ, hfreshA⟩ := hok
  obtain ⟨i1, i2, i3⟩ := h
  unfold tls_create
  split
  · exact ⟨i1, i2, i3⟩
  · rename_i hguard
    split
    · exact ⟨i1, i2, i3⟩
    · rename_i p hp
      have hpfresh := hfreshP p hp
      split
      · exact ⟨i1, i2, i3⟩
      · rename_i a s1 hm
        obtain ⟨ha, hlen, f1, f2, f3, f4, f5, _⟩ := mmap_frame hm
        obtain ⟨hal, hfree⟩ := hfreshA a ha
        have hunb : s.thread_tls t = none := by
          cases hq : s.thread_tls t with
          | none => rfl
          | some x => simp [hq] at hguard
        -- an old binding survives the call
        have old : ∀ u p1, s.thread_tls u = some p1 → p1 ≠ p := by
          intro u p1 hu hpp
          obtain ⟨r, hr, _⟩ := i2 u p1 hu
          rw [hpp, hpfresh] at hr
          cases hr
        split
        · -- the counter could not be allocated: only a record and pages are left behind
          refine ⟨?_, ?_, ?_⟩
          · intro u
            simp [Outcome.state, f1, f2, i1 u]
          · intro u p1 hu
            simp only [Outcome.state, f1] at hu
            obtain ⟨r, hr, hc, x1, x2, x3, x4⟩ := i2 u p1 hu
            refine ⟨r, ?_, ?_, x1, x2, x3, ?_⟩
            · simp [Outcome.state, upd, old u p1 hu, f3, hr]
            · simp [Outcome.state, f4, hc]
            · intro pg hpg
              simp [Outcome.state, f5, x4 pg hpg]
          · intro u v p1 q1 r1 r2 huv hu hv hr1 hr2
            simp only [Outcome.state, f1] at hu hv
            simp only [Outcome.state, upd, old u p1 hu, old v q1 hv, f3, if_false] at hr1 hr2
            exact i3 u v p1 q1 r1 r2 huv hu hv hr1 hr2
        · rename_i q hq
          have hqfresh := hfreshQ q hq
          have oldq : ∀ u p1 r, s.thread_tls u = some p1 → s.tlsHeap p1 = some r →
              r.ref_count ≠ q := by
            intro u p1 r hu hr hqq
            obtain ⟨r0, hr0, hc, _⟩ := i2 u p1 hu
            rw [hr] at hr0
            cases hr0
            rw [hqq, hqfresh] at hc
            cases hc
          have oldpg : ∀ u p1 r, s.thread_tls u = some p1 → s.tlsHeap p1 = some r →
              ∀ pg, regionPages r pg = true →
                inPages (a / PAGE_SIZE) (npages size) pg = false := by
            intro u p1 r hu hr pg hpg
            obtain ⟨r0, hr0, _, _, _, _, hmp⟩ := i2 u p1 hu
            rw [hr] at hr0
            cases hr0
            cases hin : inPages (a / PAGE_SIZE) (npages size) pg with
            | false => rfl
            | true =>
              have := hfree pg hin
              rw [hmp pg hpg] at this
              cases this
          refine ⟨?_, ?_, ?_⟩
          · intro u
            by_cases hu : u = t <;> simp [Outcome.state, upd, hu, f1, f2, i1 u]
          · intro u p1 hu
            by_cases hut : u = t
            · subst hut
              simp only [Outcome.state, upd, if_true, Option.some.injEq] at hu
              subst hu
              refine ⟨⟨size, a, q⟩, ?_, ?_, hal, Nat.pos_of_ne_zero hlen, hsz, ?_⟩
              · simp [Outcome.state, upd]
              · simp [Outcome.state, upd]
              · intro pg hpg
                simp only [regionPages] at hpg
                simp [Outcome.state, f5, hpg]
            · simp only [Outcome.state, upd, hut, if_false, f1] at hu
              obtain ⟨r, hr, hc, x1, x2, x3, x4⟩ := i2 u p1 hu
              refine ⟨r, ?_, ?_, x1, x2, x3, ?_⟩
              · simp [Outcome.state, upd, old u p1 hu, f3, hr]
              · simp [Outcome.state, upd, oldq u p1 r hu hr, f4, hc]
              · intro pg hpg
                simp [Outcome.state, f5, x4 pg hpg]
          · intro u v p1 q1 r1 r2 huv hu hv hr1 hr2
            by_cases hut : u = t
            · subst hut
              have hvt : v ≠ u := fun hh => huv hh.symm
              simp only [Outcome.state, upd, if_true, Option.some.injEq] at hu
              subst hu
              simp only [Outcome.state, upd, hvt, if_false, f1] at hv
              simp only [Outcome.state, upd, if_true, Option.some.injEq] at hr1
              subst hr1
              simp only [Outcome.state, upd, old v q1 hv, if_false, f3] at hr2
              refine ⟨fun hh => old v q1 hv hh.symm, fun hh => oldq v q1 r2 hv hr2 hh.symm, ?_⟩
              intro pg hpg
              simp only [regionPages] at hpg
              cases hin : regionPages r2 pg with
              | false => rfl
              | true =>
                have := oldpg v q1 r2 hv hr2 pg hin
                rw [hpg] at this
                cases this
            · simp only [Outcome.state, upd, hut, if_false, f1] at hu
              simp only [Outcome.state, upd, old u p1 hu, if_false, f3] at hr1
              by_cases hvt : v = t
              · subst hvt
                simp only [Outcome.state, upd, if_true, Option.some.injEq] at hv
                subst hv
                simp only [Outcome.state, upd, if_true, Option.some.injEq] at hr2
                subst hr2
                refine ⟨old u p1 hu, oldq u p1 r1 hu hr1, ?_⟩
                intro pg hpg
                exact oldpg u p1 r1 hu hr1 pg hpg
              · simp only [Outcome.state, upd, hvt, if_false, f1] at hv
                simp only [Outcome.state, upd, old v q1 hv, if_false, f3] at hr2
                exact i3 u v p1 q1 r1 r2 huv hu hv hr1 hr2

/-- The state left by `tls_destroy` when the caller holds the last reference
to a well-formed region. -/
theorem tls_destroy_last (t p : Nat) (r : TLS) (s : State)
    (hb : s.thread_tls t = some p) (hr : s.tlsHeap p = some r)
    (hc : s.intHeap r.ref_count = some 1) (hal : r.data % PAGE_SIZE = 0) (hsz : 0 < r.size) :
    (tls_destroy t s).code = some 0 ∧
    (tls_destroy t s).state.thread_tls = upd s.thread_tls t none ∧
    (tls_destroy t s).state.specific = upd s.specific t none ∧
    (tls_destroy t s).state.tlsHeap = upd s.tlsHeap p none ∧
    (∀ q, q ≠ r.ref_count → (tls_destroy t s).state.intHeap q = s.intHeap q) ∧
    (∀ pg, (tls_destroy t s).state.mapped pg = if regionPages r pg then false else s.mapped pg) ∧
    (tls_destroy t s).state.prot = s.prot ∧ (tls_destroy t s).state.bytes = s.bytes := by
  have hne : r.size ≠ 0 := by omega
  simp only [tls_destroy, hb, hr, hc]
  refine ⟨rfl, ?_, ?_, ?_, ?_, ?_, ?_, ?_⟩
  · simp [Outcome.state, (munmap_frame _ _ _).1]
  · simp [Outcome.state, (munmap_frame _ _ _).2.1]
  · simp [Outcome.state]
  · intro q hq
    simp [Outcome.state, upd, hq]
  · intro pg
    simp [Outcome.state, munmap, hal, hne, regionPages]
  · simp [Outcome.state, (munmap_frame _ _ _).2.2.2.2.1]
  · simp [Outcome.state, (munmap_frame _ _ _).2.2.2.2.2]

/-- `tls_destroy` keeps the bindings well formed. -/
theorem Inv_tls_destroy (t : Nat) (s : State) (h : Inv s) : Inv (tls_destroy t s).state := by
  cases hb : s.thread_tls t with
  | none =>
    rw [tls_destroy_unbound t s hb]
    exact h
  | some p =>
    obtain ⟨i1, i2, i3⟩ := h
    obtain ⟨r, hr, hc, hal, hsz, _, hmp⟩ := i2 t p hb
    obtain ⟨_, d1, d2, d3, d4, d5, _, _⟩ := tls_destroy_last t p r s hb hr hc hal hsz
    refine ⟨?_, ?_, ?_⟩
    · intro u
      rw [d1, d2]
      by_cases hu : u = t <;> simp [upd, hu, i1 u]
    · intro u p1 hu
      rw [d1] at hu
      by_cases hut : u = t
      · simp [upd, hut] at hu
      · simp only [upd, hut, if_false] at hu
        obtain ⟨r1, hr1, hc1, x1, x2, x3, x4⟩ := i2 u p1 hu
        obtain ⟨n1, n2, n3⟩ := i3 u t p1 p r1 r hut hu hb hr1 hr
        refine ⟨r1, ?_, ?_, x1, x2, x3, ?_⟩
        · rw [d3]
          simp [upd, n1, hr1]
        · rw [d4 _ n2]
          exact hc1
        · intro pg hpg
          rw [d5, n3 pg hpg]
          simp [x4 pg hpg]
    · intro u v p1 q1 r1 r2 huv hu hv hr1 hr2
      rw [d1] at hu hv
      rw [d3] at hr1 hr2
      by_cases hut : u = t
      · simp [upd, hut] at hu
      · by_cases hvt : v = t
        · simp [upd, hvt] at hv
        · simp only [upd, hut, hvt, if_false] at hu hv
          obtain ⟨ru, hru, _⟩ := i2 u p1 hu
          obtain ⟨rv, hrv, _⟩ := i2 v q1 hv
          have e1 : p1 ≠ p := (i3 u t p1 p ru r hut hu hb hru hr).1
          have e2 : q1 ≠ p := (i3 v t q1 p rv r hvt hv hb hrv hr).1
          simp only [upd, e1, e2, if_false] at hr1 hr2
          exact i3 u v p1 q1 r1 r2 huv hu hv hr1 hr2

/-- Every call the process can make keeps the bindings well formed. -/
theorem Inv_step (c : Call) (s : State) (h : Inv s) (hok : CallOK s c) : Inv (step c s).state := by
  cases c with
  | create e t size => exact Inv_tls_create e t size s h hok
  | write t o l buf =>
    obtain ⟨f1, f2, f3, f4, f5⟩ := tls_write_frame t o l buf s
    exact Inv_of_frame f1 f2 f3 f4 f5 h
  | read t o l buf =>
    obtain ⟨f1, f2, f3, f4, f5, _⟩ := tls_read_frame t o l buf s
    exact Inv_of_frame f1 f2 f3 f4 f5 h
  | destroy t => exact Inv_tls_destroy t s h
  | clone e t tid =>
    have : tls_clone e t tid s = .ret (-1) s := by
      by_cases hb : s.thread_tls t = none
      · exact tls_clone_no_specific e t tid s (by rw [h.1 t]; exact hb)
      · exact tls_clone_bound e t tid s hb
    simp only [step, this]
    exact h

/-- The bindings are well formed in every reachable state. -/
theorem reachable_Inv {s : State} (h : Reachable s) : Inv s := by
  induction h with
  | init => exact Inv_init
  | step c _ hok ih => exact Inv_step c _ ih hok

/-- In a reachable state a bound thread is bound to a live, page-aligned,
non-empty region whose counter holds 1. -/
theorem reachable_bound {s : State} (h : Reachable s) (t p : Nat) (hb : s.thread_tls t = some p) :
    ∃ r, BoundTo s t p r 1 := by
  obtain ⟨r, hr, hc, hal, hsz, _, _⟩ := (reachable_Inv h).2.1 t p hb
  exact ⟨r, hb, hr, hc, hal, hsz⟩

/-- All `n` pages are counted when all of them are mapped. -/
theorem mappedRun_all (s : State) : ∀ (n first : Nat),
    (∀ pg, inPages first n pg = true → s.mapped pg = true) → mappedRun s first n = n := by
  intro n
  induction n with
  | zero => intro first _; rfl
  | succ n ih =>
    intro first h
    have h0 : s.mapped first = true := h first (by simp [inPages])
    have hrest : mappedRun s (first + 1) n = n := by
      apply ih
      intro pg hpg
      apply h
      simp only [inPages, Bool.and_eq_true, decide_eq_true_eq] at hpg ⊢
      omega
    simp [mappedRun, h0, hrest]

/-- `mprotect` succeeds on a page-aligned range of mapped pages; it sets the
protection of exactly these pages and changes nothing else. -/
theorem mprotect_mapped (s : State) (addr len : Nat) (p : Prot) (hal : addr % PAGE_SIZE = 0)
    (hmp : ∀ pg, inPages (addr / PAGE_SIZE) (npages len) pg = true → s.mapped pg = true) :
    ∃ s1, mprotect s addr len p = (0, s1) ∧ s1.thread_tls = s.thread_tls ∧
      s1.tlsHeap = s.tlsHeap ∧ s1.mapped = s.mapped ∧ s1.bytes = s.bytes ∧
      (∀ pg, inPages (addr / PAGE_SIZE) (npages len) pg = true → s1.prot pg = p) ∧
      (∀ pg, inPages (addr / PAGE_SIZE) (npages len) pg = false → s1.prot pg = s.prot pg) := by
  by_cases hl : len = 0
  · refine ⟨s, by simp [mprotect, hal, hl], rfl, rfl, rfl, rfl, ?_, fun _ _ => rfl⟩
    intro pg hpg
    subst hl
    simp [inPages, npages, PAGE_SIZE] at hpg
    omega
  · have hrun := mappedRun_all s (npages len) (addr / PAGE_SIZE) hmp
    let s1 : State :=
      { s with prot := fun pg => if inPages (addr / PAGE_SIZE) (npages len) pg then p else s.prot pg }
    refine ⟨s1, by simp [mprotect, hal, hl, hrun, s1], rfl, rfl, rfl, rfl, ?_, ?_⟩
    · intro pg hpg
      simp [s1, hpg]
    · intro pg hpg
      simp [s1, hpg]

/-- The pages touched by an access that starts on a page boundary are the
pages `mprotect` works on for the same address and length. -/
theorem touched_inPages {addr len pg : Nat} (hal : addr % PAGE_SIZE = 0)
    (h : pg ∈ touched addr len) : inPages (addr / PAGE_SIZE) (npages len) pg = true := by
  unfold touched at h
  split at h
  · simp at h
  · rename_i hl
    rw [List.mem_range'_1] at h
    unfold inPages npages
    unfold PAGE_SIZE at *
    simp only [Bool.and_eq_true, decide_eq_true_eq]
    omega

/-- Reading back the bytes that were just stored. -/
theorem loadBytes_storeBytes (bytes : Nat → Nat) (a l : Nat) (buf : List Nat)
    (h : buf.length = l) : loadBytes (storeBytes bytes a l buf) a l = buf := by
  apply List.ext_getElem
  · simp [loadBytes, h]
  · intro i h1 h2
    have hi : i < l := by simpa [loadBytes] using h1
    simp [loadBytes, storeBytes, hi, List.getD_eq_getElem?_getD, List.getElem?_eq_getElem h2]

/-- Round trip at page-aligned offsets: when the caller is bound to a mapped,
page-aligned region, `offset` is a multiple of the page size and
`offset + length ≤ size`, `tls_write` returns 0 and the following `tls_read`
returns 0 with the bytes written. -/
theorem tls_round_trip_aligned (t p o l : Nat) (r : TLS) (buf out : List Nat) (s : State)
    (hb : s.thread_tls t = some p) (hr : s.tlsHeap p = some r)
    (hal : r.data % PAGE_SIZE = 0) (hsz : r.size < UINT_MOD)
    (hmp : ∀ pg, regionPages r pg = true → s.mapped pg = true)
    (ho : o % PAGE_SIZE = 0) (hol : o + l ≤ r.size) (hbuf : buf.length = l) :
    ∃ s1 s2, tls_write t o l buf s = .ret 0 s1 ∧
      tls_read t o l out s1 = (.ret 0 s2, buf ++ out.drop l) := by
  have hnot : ¬ (o + l) % UINT_MOD > r.size := by
    rw [Nat.mod_eq_of_lt (by omega)]
    omega
  have hal2 : (r.data + o) % PAGE_SIZE = 0 := by
    unfold PAGE_SIZE at *
    omega
  have hsub : ∀ pg, inPages ((r.data + o) / PAGE_SIZE) (npages l) pg = true →
      regionPages r pg = true := by
    intro pg hpg
    unfold regionPages
    unfold inPages npages at *
    unfold PAGE_SIZE at *
    simp only [Bool.and_eq_true, decide_eq_true_eq] at *
    omega
  -- the write
  obtain ⟨s1, hm1, a1, a2, a3, a4, a5, _⟩ :=
    mprotect_mapped s (r.data + o) l Prot.PROT_RW hal2 (fun pg hpg => hmp pg (hsub pg hpg))
  have hcw : canWrite s1 (r.data + o) l = true := by
    unfold canWrite
    rw [List.all_eq_true]
    intro pg hpg
    have hin := touched_inPages hal2 hpg
    simp [a3, hmp pg (hsub pg hin), a5 pg hin]
  obtain ⟨s3, hm3, b1, b2, b3, b4, _, _⟩ :=
    mprotect_mapped { s1 with bytes := storeBytes s1.bytes (r.data + o) l buf } (r.data + o) l
      Prot.PROT_NONE hal2 (fun pg hpg => by
        show s1.mapped pg = true
        rw [a3]
        exact hmp pg (hsub pg hpg))
  have hw : tls_write t o l buf s = .ret 0 s3 := by
    simp [tls_write, hb, hr, hnot, hm1, hcw, hm3]
  -- the read
  have hb3 : s3.thread_tls t = some p := by
    rw [b1]
    show s1.thread_tls t = some p
    rw [a1]
    exact hb
  have hr3 : s3.tlsHeap p = some r := by
    rw [b2]
    show s1.tlsHeap p = some r
    rw [a2]
    exact hr
  have hmp3 : ∀ pg, regionPages r pg = true → s3.mapped pg = true := by
    intro pg hpg
    rw [b3]
    show s1.mapped pg = true
    rw [a3]
    exact hmp pg hpg
  obtain ⟨s4, hm4, c1, c2, c3, c4, c5, _⟩ :=
    mprotect_mapped s3 (r.data + o) l Prot.PROT_READ hal2 (fun pg hpg => hmp3 pg (hsub pg hpg))
  have hcr : canRead s4 (r.data + o) l = true := by
    unfold canRead
    rw [List.all_eq_true]
    intro pg hpg
    have hin := touched_inPages hal2 hpg
    simp [c3, hmp3 pg (hsub pg hin), c5 pg hin]
  obtain ⟨s5, hm5, _⟩ :=
    mprotect_mapped s4 (r.data + o) l Prot.PROT_NONE hal2 (fun pg hpg => by
      rw [c3]
      exact hmp3 pg (hsub pg hpg))
  have hbytes : loadBytes s4.bytes (r.data + o) l = buf := by
    rw [c4, b4]
    exact loadBytes_storeBytes s1.bytes (r.data + o) l buf hbuf
  refine ⟨s3, s5, hw, ?_⟩
  simp [tls_read, hb3, hr3, hnot, hm4, hcr, hm5, hbytes, fillBuffer, hbuf]

/-- Round trip at page-aligned offsets in every reachable state. -/
theorem reachable_round_trip_aligned {s : State} (h : Reachable s) (t p o l : Nat)
    (buf out : List Nat) (hb : s.thread_tls t = some p) (ho : o % PAGE_SIZE = 0)
    (hbuf : buf.length = l) :
    ∃ r, s.tlsHeap p = some r ∧ (o + l ≤ r.size →
      ∃ s1 s2, tls_write t o l buf s = .ret 0 s1 ∧
        tls_read t o l out s1 = (.ret 0 s2, buf ++ out.drop l)) := by
  obtain ⟨r, hr, _, hal, _, hsz, hmp⟩ := (reachable_Inv h).2.1 t p hb
  exact ⟨r, hr, fun hol => tls_round_trip_aligned t p o l r buf out s hb hr hal hsz hmp ho hol hbuf⟩

/-- At an offset that is not a multiple of the page size, `tls_write` and
`tls_read` of a bound caller do not return 0 in a reachable state. -/
theorem reachable_unaligned_fails {s : State} (h : Reachable s) (t p o l : Nat)
    (buf : List Nat) (hb : s.thread_tls t = some p) (ho : o % PAGE_SIZE ≠ 0) :
    tls_write t o l buf s = .ret (-1) s ∧ tls_read t o l buf s = (.ret (-1) s, buf) := by
  obtain ⟨r, hr, _, hal, _, _, _⟩ := (reachable_Inv h).2.1 t p hb
  have hal2 : (r.data + o) % PAGE_SIZE ≠ 0 := by
    unfold PAGE_SIZE at *
    omega
  have hm : ∀ q, mprotect s (r.data + o) l q = (-1, s) := by
    intro q
    simp [mprotect, hal2]
  constructor
  · simp only [tls_write, hb, hr, hm]
    split <;> simp
  · simp only [tls_read, hb, hr, hm]
    split <;> simp

/-! ## The scenarios are reachable -/

/-- In the initial state every address and page is free. -/
theorem EnvOK_init (e : Env) (len : Nat) (h : ∀ a, e.mmapAddr = some a → a % PAGE_SIZE = 0) :
    EnvOK State.init e len :=
  ⟨fun _ _ => rfl, fun _ _ => rfl, fun a ha => ⟨h a ha, fun _ _ => rfl⟩⟩

/-- The state in which thread 0 has created a 16-byte region is reachable. -/
theorem stA16_reachable : Reachable stA16 :=
  Reachable.step (.create envA 0 16) Reachable.init
    ⟨by decide, EnvOK_init envA 16 (by
      intro a ha
      cases ha
      decide)⟩

/-- The state in which thread 0 has also written "HELLOWORLD!!!!!!" is reachable. -/
theorem stHello_reachable : Reachable stHello :=
  Reachable.step (.write 0 0 16 helloWorld) stA16_reachable ⟨by decide, by decide, by decide⟩

/-- The state in which thread 0 holds a page right below the region of
`2^32 - 1` bytes of thread 1 is reachable. -/
theorem stAbove_reachable : Reachable stAbove := by
  have h1 : Reachable (tls_create envAbove 1 0xFFFFFFFF State.init).state :=
    Reachable.step (.create envAbove 1 0xFFFFFFFF) Reachable.init
      ⟨by decide, EnvOK_init envAbove _ (by
        intro a ha
        cases ha
        decide)⟩
  refine Reachable.step (.create envA 0 4096) h1 ⟨by decide, ?_, ?_, ?_⟩
  · intro p hp
    cases hp
    decide
  · intro q hq
    cases hq
    decide
  · intro a ha
    cases ha
    refine ⟨by decide, ?_⟩
    intro pg hpg
    have : pg = 16 := by
      simp [inPages, npages, PAGE_SIZE] at hpg
      omega
    subst this
    decide

/-! ## The claims -/

/-- C1 (round trip, fails on the code): in a reachable state thread 0 is bound
to a 16-byte region and offset 1, length 1 is in range (1 + 1 ≤ 16), yet
`tls_write(1, 1, "A")` returns `-1` and stores nothing, and `tls_read(1, 1, out)`
returns `-1` and leaves `out` alone: `mprotect` refuses the address `data + 1`,
which is not a multiple of the page size.  At offset 0 the same write and read
succeed. -/
theorem c1_round_trip_fails_off_page_boundary :
    Reachable stA16 ∧
    stA16.thread_tls 0 = some 1 ∧ stA16.tlsHeap 1 = some ⟨16, 0x10000, 2⟩ ∧ 1 + 1 ≤ 16 ∧
    (tls_write 0 1 1 [65] stA16).code = some (-1) ∧
    (tls_write 0 1 1 [65] stA16).state.bytes (0x10000 + 1) = 0 ∧
    (tls_read 0 1 1 [0] (tls_write 0 1 1 [65] stA16).state).1.code = some (-1) ∧
    (tls_read 0 1 1 [0] (tls_write 0 1 1 [65] stA16).state).2 = [0] ∧
    (tls_write 0 0 1 [65] stA16).code = some 0 ∧
    (tls_read 0 0 1 [0] (tls_write 0 0 1 [65] stA16).state).1.code = some 0 ∧
    (tls_read 0 0 1 [0] (tls_write 0 0 1 [65] stA16).state).2 = [65] :=
  ⟨stA16_reachable, by decide⟩

set_option maxRecDepth 100000 in
/-- C2 (bounds check, fails on the code): in a reachable state thread 0 is
bound to a 4096-byte region, and offset `0xFFFFF000` plus length `0x1000` is
`2^32`, far above 4096.  The sum wraps to 0 in `unsigned int`, the check passes,
and `tls_write` returns 0 after storing 4096 bytes into the region of thread 1,
which reads them back; `tls_read` with the same offset and length returns 0
after copying bytes of thread 1's region to the caller. -/
theorem c2_wrapped_sum_passes_bounds_check :
    Reachable stAbove ∧
    stAbove.thread_tls 0 = some 1 ∧ stAbove.tlsHeap 1 = some ⟨4096, 0x10000, 2⟩ ∧
    stAbove.thread_tls 1 = some 3 ∧ stAbove.tlsHeap 3 = some ⟨0xFFFFFFFF, 0x11000, 4⟩ ∧
    4096 < 0xFFFFF000 + 0x1000 ∧
    (tls_write 0 0xFFFFF000 0x1000 (List.replicate 4096 88) stAbove).code = some 0 ∧
    stAbove.bytes (0x11000 + 0xFFFFE000) = 0 ∧
    (tls_write 0 0xFFFFF000 0x1000 (List.replicate 4096 88) stAbove).state.bytes
      (0x11000 + 0xFFFFE000) = 88 ∧
    (tls_read 1 0xFFFFE000 2 [0, 0]
      (tls_write 0 0xFFFFF000 0x1000 (List.replicate 4096 88) stAbove).state).2 = [88, 88] ∧
    (tls_read 0 0xFFFFF000 0x1000 (List.replicate 4096 0)
      (tls_write 1 0xFFFFE000 2 [88, 89] stAbove).state).1.code = some 0 ∧
    (tls_read 0 0xFFFFF000 0x1000 (List.replicate 4096 0)
      (tls_write 1 0xFFFFE000 2 [88, 89] stAbove).state).2.take 2 = [88, 89] :=
  ⟨stAbove_reachable, by decide⟩

/-- C3 (clone succeeds for an unbound caller and a bound target, fails on the
code): in a reachable state thread 0 is bound to a 16-byte region, thread 1 is
unbound, storage is available, and `tls_clone(0)` called by thread 1 returns
`-1` and changes nothing. -/
theorem c3_clone_of_bound_target_returns_minus_one :
    Reachable stA16 ∧
    stA16.thread_tls 0 = some 1 ∧ stA16.tlsHeap 1 = some ⟨16, 0x10000, 2⟩ ∧
    stA16.intHeap 2 = some 1 ∧ stA16.thread_tls 1 = none ∧
    tls_clone envB 1 0 stA16 = .ret (-1) stA16 := by
  refine ⟨stA16_reachable, by decide, by decide, by decide, by decide, ?_⟩
  exact tls_clone_no_specific envB 1 0 stA16 (by decide)

/-- C5 (clone independence scenario, fails on the code): thread 0 creates a
16-byte region and writes "HELLOWORLD!!!!!!" at offset 0; the clone by thread 1
returns `-1`, so does its write of "XXXXX"; reading offset 0 length 5 yields
"HELLO" in thread 0 but fails in thread 1, whose buffer keeps its zeros. -/
theorem c5_scenario_reader_b_gets_nothing :
    (tls_create envA 0 16 State.init).code = some 0 ∧
    (tls_write 0 0 16 helloWorld stA16).code = some 0 ∧
    tls_clone envB 1 0 stHello = .ret (-1) stHello ∧
    tls_write 1 0 5 xxxxx stHello = .ret (-1) stHello ∧
    (tls_read 0 0 5 [0, 0, 0, 0, 0] stHello).1.code = some 0 ∧
    (tls_read 0 0 5 [0, 0, 0, 0, 0] stHello).2 = hello ∧
    tls_read 1 0 5 [0, 0, 0, 0, 0] stHello = (.ret (-1) stHello, [0, 0, 0, 0, 0]) := by
  refine ⟨by decide, by decide, ?_, ?_, by decide, by decide, ?_⟩
  · exact tls_clone_no_specific envB 1 0 stHello (by decide)
  · exact tls_write_unbound 1 0 5 xxxxx stHello (by decide)
  · exact tls_read_unbound 1 0 5 _ stHello (by decide)

/-- C6 (reference counting sequence, fails on the code): after thread 0's
`tls_create` the counter is 1; `tls_clone(0)` by thread 1 returns `-1` and the
counter stays 1; the first `tls_destroy`, by thread 0, returns 0, frees the
counter and unmaps the region; the `tls_destroy` of thread 1 returns `-1`. -/
theorem c6_count_never_reaches_two :
    stA16.intHeap 2 = some 1 ∧
    (tls_clone envB 1 0 stA16).code = some (-1) ∧
    (tls_clone envB 1 0 stA16).state.intHeap 2 = some 1 ∧
    stA16.mapped (0x10000 / PAGE_SIZE) = true ∧
    (tls_destroy 0 (tls_clone envB 1 0 stA16).state).code = some 0 ∧
    (tls_destroy 0 (tls_clone envB 1 0 stA16).state).state.intHeap 2 = none ∧
    (tls_destroy 0 (tls_clone envB 1 0 stA16).state).state.mapped (0x10000 / PAGE_SIZE) = false ∧
    (tls_destroy 1 (tls_destroy 0 (tls_clone envB 1 0 stA16).state).state).code = some (-1) ∧
    (tls_destroy 1 (tls_clone envB 1 0 stA16).state).code = some (-1) := by
  decide

/-- C7: `tls_destroy` returns `-1` and changes nothing when the caller is
unbound.  When the caller is bound to a live region whose counter holds `c`, it
returns 0, the counter becomes `c - 1`, the pages of the region are unmapped
(and counter and record freed) exactly when `c - 1 = 0`, and the caller is left
unbound: its next `tls_read`, `tls_write` and `tls_destroy` return `-1`, and its
next `tls_create` with a positive size returns 0 when storage is available. -/
theorem tls_destroy_spec (t : Nat) (s : State) :
    (s.thread_tls t = none → tls_destroy t s = .ret (-1) s) ∧
    (∀ p r c, BoundTo s t p r c →
      ∃ s1, tls_destroy t s = .ret 0 s1 ∧
        s1.intHeap r.ref_count = (if c - 1 = 0 then none else some (c - 1)) ∧
        (∀ pg, s1.mapped pg =
          if c - 1 = 0 ∧ inPages (r.data / PAGE_SIZE) (npages r.size) pg = true then false
          else s.mapped pg) ∧
        s1.thread_tls t = none ∧ s1.specific t = none ∧
        (∀ o l b, tls_read t o l b s1 = (.ret (-1) s1, b)) ∧
        (∀ o l b, tls_write t o l b s1 = .ret (-1) s1) ∧
        tls_destroy t s1 = .ret (-1) s1 ∧
        (∀ e size p1 a q, 0 < size → e.mallocTLS = some p1 → e.mmapAddr = some a →
          e.mallocInt = some q → (tls_create e t size s1).code = some 0)) := by
  refine ⟨tls_destroy_unbound t s, ?_⟩
  rintro p r c ⟨hb, hr, hc, hal, hsz⟩
  have hne : r.size ≠ 0 := by omega
  have key : ∃ s1, tls_destroy t s = .ret 0 s1 ∧
      s1.intHeap r.ref_count = (if c - 1 = 0 then none else some (c - 1)) ∧
      (∀ pg, s1.mapped pg =
        if c - 1 = 0 ∧ inPages (r.data / PAGE_SIZE) (npages r.size) pg = true then false
        else s.mapped pg) ∧
      s1.thread_tls t = none ∧ s1.specific t = none := by
    by_cases hz : c - 1 = 0
    · refine ⟨_, by simp only [tls_destroy, hb, hr, hc]; rfl, ?_, ?_, ?_, ?_⟩
      · simp [hz, upd]
      · intro pg
        by_cases hin : inPages (r.data / PAGE_SIZE) (npages r.size) pg = true <;>
          simp [hz, munmap, hal, hne, hin]
      · simp [upd]
      · simp [upd]
    · refine ⟨_, by simp only [tls_destroy, hb, hr, hc]; rfl, ?_, ?_, ?_, ?_⟩
      · simp [hz, upd]
      · intro pg
        simp [hz]
      · simp [upd]
      · simp [upd]
  obtain ⟨s1, h1, h2, h3, h4, h5⟩ := key
  refine ⟨s1, h1, h2, h3, h4, h5, ?_, ?_, ?_, ?_⟩
  · intro o l b
    exact tls_read_unbound t o l b s1 h4
  · intro o l b
    exact tls_write_unbound t o l b s1 h4
  · exact tls_destroy_unbound t s1 h4
  · intro e size p1 a q hs hp ha hq
    have hs0 : size ≠ 0 := by omega
    simp [tls_create, hs0, h4, hp, ha, hq, mmap, Outcome.code]

/-- C7 at concrete inputs: thread 1 is unbound and thread 0 is bound in the
state where thread 0 has created a 16-byte region. -/
theorem tls_destroy_spec_witness :
    stA16.thread_tls 1 = none ∧ tls_destroy 1 stA16 = .ret (-1) stA16 ∧
    BoundTo stA16 0 1 ⟨16, 0x10000, 2⟩ 1 ∧
    ∃ s1, tls_destroy 0 stA16 = .ret 0 s1 ∧ s1.intHeap 2 = none ∧
      s1.mapped (0x10000 / PAGE_SIZE) = false ∧ s1.thread_tls 0 = none ∧
      (tls_create envA 0 16 s1).code = some 0 := by
  have hb : BoundTo stA16 0 1 ⟨16, 0x10000, 2⟩ 1 := by
    refine ⟨by decide, by decide, by decide, by decide, by decide⟩
  refine ⟨by decide, (tls_destroy_spec 1 stA16).1 (by decide), hb, ?_⟩
  obtain ⟨s1, h1, h2, h3, h4, _, _, _, _, h9⟩ := (tls_destroy_spec 0 stA16).2 1 ⟨16, 0x10000, 2⟩ 1 hb
  refine ⟨s1, h1, ?_, ?_, h4, ?_⟩
  · simpa using h2
  · rw [h3]
    decide
  · exact h9 envA 16 1 0x10000 2 (by decide) rfl rfl rfl

/-- C8: `tls_create(size)` returns `-1` when `size` is 0 or the caller is
already bound, and the state (bindings, records, counters, mappings, bytes) is
the one before the call. -/
theorem tls_create_rejects (e : Env) (t size : Nat) (s : State)
    (h : size = 0 ∨ s.thread_tls t ≠ none) :
    tls_create e t size s = .ret (-1) s := by
  have : size = 0 ∨ (s.thread_tls t).isSome = true := by
    rcases h with h | h
    · exact Or.inl h
    · right
      cases hq : s.thread_tls t with
      | none => exact absurd hq h
      | some p => rfl
  simp [tls_create, this]

/-- C8 at concrete inputs: size 0 by the unbound thread 1, and size 32 by the
bound thread 0. -/
theorem tls_create_rejects_witness :
    tls_create envB 1 0 stA16 = .ret (-1) stA16 ∧
    stA16.thread_tls 0 ≠ none ∧ tls_create envB 0 32 stA16 = .ret (-1) stA16 :=
  ⟨tls_create_rejects envB 1 0 stA16 (Or.inl rfl), by decide,
    tls_create_rejects envB 0 32 stA16 (Or.inr (by decide))⟩

/-- C9: for a positive size and an unbound caller, when both `malloc` calls and
`mmap` succeed, `tls_create(size)` returns 0; the caller is bound to the record
`malloc` handed out, whose size is `size`, whose counter is 1 and whose pages
are mapped with `PROT_NONE`; no other thread's binding, no other record and no
other counter changes. -/
theorem tls_create_binds (e : Env) (t size : Nat) (s : State) (p a q : Nat)
    (hsize : 0 < size) (hunb : s.thread_tls t = none)
    (hp : e.mallocTLS = some p) (ha : e.mmapAddr = some a) (hq : e.mallocInt = some q) :
    ∃ s1, tls_create e t size s = .ret 0 s1 ∧
      s1.thread_tls t = some p ∧ s1.specific t = some p ∧
      s1.tlsHeap p = some ⟨size, a, q⟩ ∧ s1.intHeap q = some 1 ∧
      (∀ pg, inPages (a / PAGE_SIZE) (npages size) pg = true →
        s1.mapped pg = true ∧ s1.prot pg = Prot.PROT_NONE) ∧
      (∀ u, u ≠ t → s1.thread_tls u = s.thread_tls u ∧ s1.specific u = s.specific u) ∧
      (∀ p1, p1 ≠ p → s1.tlsHeap p1 = s.tlsHeap p1) ∧
      (∀ q1, q1 ≠ q → s1.intHeap q1 = s.intHeap q1) := by
  have hs0 : size ≠ 0 := by omega
  refine ⟨_, by simp only [tls_create, hs0, hunb, hp, ha, hq, mmap]; rfl, ?_, ?_, ?_, ?_, ?_, ?_, ?_, ?_⟩
  · simp [upd]
  · simp [upd]
  · simp [upd]
  · simp [upd]
  · intro pg hpg
    simp [hpg]
  · intro u hu
    simp [upd, hu]
  · intro p1 h1
    simp [upd, h1]
  · intro q1 h1
    simp [upd, h1]

/-- C9 at concrete inputs: thread 1 creates a 100-byte region next to the
region of thread 0. -/
theorem tls_create_binds_witness :
    stA16.thread_tls 1 = none ∧
    ∃ s1, tls_create envB 1 100 stA16 = .ret 0 s1 ∧ s1.thread_tls 1 = some 3 ∧
      s1.tlsHeap 3 = some ⟨100, 0x20000, 4⟩ ∧ s1.intHeap 4 = some 1 ∧
      s1.thread_tls 0 = stA16.thread_tls 0 := by
  refine ⟨by decide, ?_⟩
  obtain ⟨s1, h1, h2, _, h4, h5, _, h7, _⟩ :=
    tls_create_binds envB 1 100 stA16 3 0x20000 4 (by decide) (by decide) rfl rfl rfl
  exact ⟨s1, h1, h2, h4, h5, (h7 0 (by decide)).1⟩

/-- C10: a thread `b` that has made no successful `tls_create` or `tls_clone`
is refused by `tls_read` and `tls_write` after any sequence of calls of the
other threads (and of failed calls of its own): both return `-1`, the buffer
given to `tls_read` comes back as it was, and the state, with every byte of
every region, is the one before the call. -/
theorem tls_isolation (b : Nat) (cs : List Call) (h : NoBind b cs State.init)
    (o l : Nat) (buf : List Nat) :
    tls_read b o l buf (run cs State.init) = (.ret (-1) (run cs State.init), buf) ∧
    tls_write b o l buf (run cs State.init) = .ret (-1) (run cs State.init) := by
  have hu : (run cs State.init).thread_tls b = none := run_keeps_unbound b cs _ rfl h
  exact ⟨tls_read_unbound b o l buf _ hu, tls_write_unbound b o l buf _ hu⟩

/-- C10 at concrete inputs: thread 0 creates and fills a region, thread 1 only
makes failing calls, and then reads and writes 5 bytes at offset 0. -/
theorem tls_isolation_witness :
    NoBind 1 traceA State.init ∧
    tls_read 1 0 5 [0, 0, 0, 0, 0] (run traceA State.init) =
      (.ret (-1) (run traceA State.init), [0, 0, 0, 0, 0]) ∧
    tls_write 1 0 5 xxxxx (run traceA State.init) = .ret (-1) (run traceA State.init) := by
  have hn : NoBind 1 traceA State.init := by
    simp [NoBind, traceA, Call.thread, Call.binds, step, tls_clone_code_ne_zero]
  exact ⟨hn, (tls_isolation 1 traceA hn 0 5 [0, 0, 0, 0, 0]).1,
    (tls_isolation 1 traceA hn 0 5 xxxxx).2⟩

/-! ## Page protections between the calls -/

/-- No page is mapped in the initial state. -/
theorem ProtInv_init : ProtInv State.init := by
  intro pg h
  cases h

/-- With well-formed bindings, closed mapped pages give closed regions. -/
theorem ClosedPages_of_ProtInv {s : State} (hi : Inv s) (hp : ProtInv s) : ClosedPages s := by
  intro t p r pg hb hr hpg
  obtain ⟨r1, hr1, _, _, _, _, hmp⟩ := hi.2.1 t p hb
  rw [hr] at hr1
  cases hr1
  exact hp pg (hmp pg hpg)

/-- The pages mapped by `tls_create` have no access permission. -/
theorem ProtInv_tls_create (e : Env) (t size : Nat) (s : State) (hp : ProtInv s) :
    ProtInv (tls_create e t size s).state := by
  unfold tls_create
  split
  · exact hp
  · split
    · exact hp
    · split
      · exact hp
      · rename_i a s1 hm
        obtain ⟨_, _, _, _, _, _, f5, f6⟩ := mmap_frame hm
        have key : ProtInv s1 := by
          intro pg hpg
          rw [f5] at hpg
          rw [f6]
          split
          · rfl
          · rename_i hin
            rw [if_neg hin] at hpg
            exact hp pg hpg
        split <;> exact key

/-- A `tls_write` inside a well-formed region leaves no mapped page open. -/
theorem ProtInv_tls_write (t p o l : Nat) (r : TLS) (buf : List Nat) (s : State)
    (hb : s.thread_tls t = some p) (hr : s.tlsHeap p = some r)
    (hal : r.data % PAGE_SIZE = 0)
    (hmp : ∀ pg, regionPages r pg = true → s.mapped pg = true)
    (hol : o + l < UINT_MOD) (hp : ProtInv s) : ProtInv (tls_write t o l buf s).state := by
  by_cases hnot : (o + l) % UINT_MOD > r.size
  · simp only [tls_write, hb, hr, hnot, if_true]
    exact hp
  rw [Nat.mod_eq_of_lt hol] at hnot
  by_cases ho : o % PAGE_SIZE = 0
  · have hnot2 : ¬ (o + l) % UINT_MOD > r.size := by
      rw [Nat.mod_eq_of_lt hol]
      exact hnot
    have hal2 : (r.data + o) % PAGE_SIZE = 0 := by
      unfold PAGE_SIZE at *
      omega
    have hsub : ∀ pg, inPages ((r.data + o) / PAGE_SIZE) (npages l) pg = true →
        regionPages r pg = true := by
      intro pg hpg
      unfold regionPages
      unfold inPages npages at *
      unfold PAGE_SIZE at *
      simp only [Bool.and_eq_true, decide_eq_true_eq] at *
      omega
    obtain ⟨s1, hm1, a1, a2, a3, a4, a5, a6⟩ :=
      mprotect_mapped s (r.data + o) l Prot.PROT_RW hal2 (fun pg hpg => hmp pg (hsub pg hpg))
    have hcw : canWrite s1 (r.data + o) l = true := by
      unfold canWrite
      rw [List.all_eq_true]
      intro pg hpg
      have hin := touched_inPages hal2 hpg
      simp [a3, hmp pg (hsub pg hin), a5 pg hin]
    obtain ⟨s3, hm3, b1, b2, b3, b4, b5, b6⟩ :=
      mprotect_mapped { s1 with bytes := storeBytes s1.bytes (r.data + o) l buf } (r.data + o) l
        Prot.PROT_NONE hal2 (fun pg hpg => by
          show s1.mapped pg = true
          rw [a3]
          exact hmp pg (hsub pg hpg))
    have hw : tls_write t o l buf s = .ret 0 s3 := by
      simp [tls_write, hb, hr, hnot2, hm1, hcw, hm3]
    rw [hw]
    intro pg hpg
    show s3.prot pg = Prot.PROT_NONE
    cases hin : inPages ((r.data + o) / PAGE_SIZE) (npages l) pg with
    | true => exact b5 pg hin
    | false =>
      rw [b6 pg hin]
      show s1.prot pg = Prot.PROT_NONE
      rw [a6 pg hin]
      apply hp
      have : s3.mapped pg = true := hpg
      rw [b3] at this
      have h1 : s1.mapped pg = true := this
      rw [a3] at h1
      exact h1
  · have hal2 : (r.data + o) % PAGE_SIZE ≠ 0 := by
      unfold PAGE_SIZE at *
      omega
    have hm : ∀ q, mprotect s (r.data + o) l q = (-1, s) := by
      intro q
      simp [mprotect, hal2]
    have hw : tls_write t o l buf s = .ret (-1) s := by
      simp only [tls_write, hb, hr, hm]
      split <;> simp
    rw [hw]
    exact hp

/-- A `tls_read` inside a well-formed region leaves no mapped page open. -/
theorem ProtInv_tls_read (t p o l : Nat) (r : TLS) (buf : List Nat) (s : State)
    (hb : s.thread_tls t = some p) (hr : s.tlsHeap p = some r)
    (hal : r.data % PAGE_SIZE = 0)
    (hmp : ∀ pg, regionPages r pg = true → s.mapped pg = true)
    (hol : o + l < UINT_MOD) (hp : ProtInv s) : ProtInv (tls_read t o l buf s).1.state := by
  by_cases hnot : (o + l) % UINT_MOD > r.size
  · simp only [tls_read, hb, hr, hnot, if_true]
    exact hp
  rw [Nat.mod_eq_of_lt hol] at hnot
  by_cases ho : o % PAGE_SIZE = 0
  · have hnot2 : ¬ (o + l) % UINT_MOD > r.size := by
      rw [Nat.mod_eq_of_lt hol]
      exact hnot
    have hal2 : (r.data + o) % PAGE_SIZE = 0 := by
      unfold PAGE_SIZE at *
      omega
    have hsub : ∀ pg, inPages ((r.data + o) / PAGE_SIZE) (npages l) pg = true →
        regionPages r pg = true := by
      intro pg hpg
      unfold regionPages
      unfold inPages npages at *
      unfold PAGE_SIZE at *
      simp only [Bool.and_eq_true, decide_eq_true_eq] at *
      omega
    obtain ⟨s1, hm1, a1, a2, a3, a4, a5, a6⟩ :=
      mprotect_mapped s (r.data + o) l Prot.PROT_READ hal2 (fun pg hpg => hmp pg (hsub pg hpg))
    have hcr : canRead s1 (r.data + o) l = true := by
      unfold canRead
      rw [List.all_eq_true]
      intro pg hpg
      have hin := touched_inPages hal2 hpg
      simp [a3, hmp pg (hsub pg hin), a5 pg hin]
    obtain ⟨s3, hm3, b1, b2, b3, b4, b5, b6⟩ :=
      mprotect_mapped s1 (r.data + o) l Prot.PROT_NONE hal2 (fun pg hpg => by
        rw [a3]
        exact hmp pg (hsub pg hpg))
    have hw : (tls_read t o l buf s).1 = .ret 0 s3 := by
      simp [tls_read, hb, hr, hnot2, hm1, hcr, hm3]
    rw [hw]
    intro pg hpg
    show s3.prot pg = Prot.PROT_NONE
    cases hin : inPages ((r.data + o) / PAGE_SIZE) (npages l) pg with
    | true => exact b5 pg hin
    | false =>
      rw [b6 pg hin, a6 pg hin]
      apply hp
      have : s3.mapped pg = true := hpg
      rw [b3, a3] at this
      exact this
  · have hal2 : (r.data + o) % PAGE_SIZE ≠ 0 := by
      unfold PAGE_SIZE at *
      omega
    have hm : ∀ q, mprotect s (r.data + o) l q = (-1, s) := by
      intro q
      simp [mprotect, hal2]
    have hw : (tls_read t o l buf s).1 = .ret (-1) s := by
      simp only [tls_read, hb, hr, hm]
      split <;> simp
    rw [hw]
    exact hp

/-- With well-formed bindings, a call whose `offset + length` does not wrap
around leaves no mapped page open. -/
theorem ProtInv_step (c : Call) (s : State) (hi : Inv s) (hp : ProtInv s) (hnw : NoWrap c) :
    ProtInv (step c s).state := by
  cases c with
  | create e t size => exact ProtInv_tls_create e t size s hp
  | write t o l buf =>
    cases hb : s.thread_tls t with
    | none =>
      simp only [step, tls_write_unbound t o l buf s hb]
      exact hp
    | some p =>
      obtain ⟨r, hr, _, hal, _, _, hmp⟩ := hi.2.1 t p hb
      exact ProtInv_tls_write t p o l r buf s hb hr hal hmp hnw hp
  | read t o l buf =>
    cases hb : s.thread_tls t with
    | none =>
      simp only [step, tls_read_unbound t o l buf s hb]
      exact hp
    | some p =>
      obtain ⟨r, hr, _, hal, _, _, hmp⟩ := hi.2.1 t p hb
      exact ProtInv_tls_read t p o l r buf s hb hr hal hmp hnw hp
  | destroy t =>
    cases hb : s.thread_tls t with
    | none =>
      simp only [step, tls_destroy_unbound t s hb]
      exact hp
    | some p =>
      obtain ⟨r, hr, hc, hal, hsz, _, _⟩ := hi.2.1 t p hb
      obtain ⟨_, _, _, _, _, d5, d6, _⟩ := tls_destroy_last t p r s hb hr hc hal hsz
      intro pg hpg
      show (tls_destroy t s).state.prot pg = Prot.PROT_NONE
      have hpg1 : (tls_destroy t s).state.mapped pg = true := hpg
      rw [d6]
      rw [d5] at hpg1
      split at hpg1
      · cases hpg1
      · exact hp pg hpg1
  | clone e t tid =>
    have : tls_clone e t tid s = .ret (-1) s := by
      by_cases hb : s.thread_tls t = none
      · exact tls_clone_no_specific e t tid s (by rw [hi.1 t]; exact hb)
      · exact tls_clone_bound e t tid s hb
    simp only [step, this]
    exact hp

/-- When no call lets `offset + length` wrap around, every page of every bound
region has no access permission after the calls. -/
theorem run_closed_pages : ∀ (cs : List Call) (s : State), Inv s → ProtInv s →
    CallsNoWrap cs s → ClosedPages (run cs s)
  | [], _, hi, hp, _ => ClosedPages_of_ProtInv hi hp
  | c :: cs, s, hi, hp, h =>
    run_closed_pages cs (step c s).state (Inv_step c s hi h.1) (ProtInv_step c s hi hp h.2.1) h.2.2

/-- The state in which thread 0 has created a region of two pages is reachable. -/
theorem stA8192_reachable : Reachable stA8192 :=
  Reachable.step (.create envA 0 8192) Reachable.init
    ⟨by decide, EnvOK_init envA 8192 (by
      intro a ha
      cases ha
      decide)⟩

/-- The buffer `wrapBuf` holds `wrapLen` bytes. -/
theorem wrapBuf_length : wrapBuf.length = wrapLen := by
  simp [wrapBuf]

/-- C22: thread 0 is bound to a region of two pages (8192 bytes at `0x10000`)
in a reachable state in which every page of the region has no access
permission.  Its call `tls_write(4096, 0xFFFFF000, buffer)`, whose sum
`offset + length` wraps around to 0 and so passes the bounds check, returns
`-1` after `mprotect` has opened the second page of the region and failed on
the unmapped page behind it: the region is still bound and live, its page 17
is mapped and left readable and writable.  The same call of `tls_read` returns
`-1` and leaves the page readable.  Either state is reachable, so the property
"every page of every live region has no access permission after a call has
returned" fails there. -/
theorem c22_failed_call_leaves_page_open :
    Reachable stA8192 ∧ ClosedPages stA8192 ∧
    CallOK stA8192 (.write 0 4096 wrapLen wrapBuf) ∧
    (4096 + wrapLen) % UINT_MOD = 0 ∧
    (tls_write 0 4096 wrapLen wrapBuf stA8192).code = some (-1) ∧
    (tls_write 0 4096 wrapLen wrapBuf stA8192).state.thread_tls 0 = some 1 ∧
    (tls_write 0 4096 wrapLen wrapBuf stA8192).state.tlsHeap 1 = some ⟨8192, 0x10000, 2⟩ ∧
    regionPages ⟨8192, 0x10000, 2⟩ 17 = true ∧
    (tls_write 0 4096 wrapLen wrapBuf stA8192).state.mapped 17 = true ∧
    (tls_write 0 4096 wrapLen wrapBuf stA8192).state.prot 17 = Prot.PROT_RW ∧
    Reachable (tls_write 0 4096 wrapLen wrapBuf stA8192).state ∧
    ¬ ClosedPages (tls_write 0 4096 wrapLen wrapBuf stA8192).state ∧
    (tls_read 0 4096 wrapLen wrapBuf stA8192).1.code = some (-1) ∧
    (tls_read 0 4096 wrapLen wrapBuf stA8192).1.state.prot 17 = Prot.PROT_READ ∧
    Reachable (tls_read 0 4096 wrapLen wrapBuf stA8192).1.state ∧
    ¬ ClosedPages (tls_read 0 4096 wrapLen wrapBuf stA8192).1.state := by
  have hok : wrapLen ≤ wrapBuf.length := by
    rw [wrapBuf_length]
  have hw : (tls_write 0 4096 wrapLen wrapBuf stA8192).state.prot 17 = Prot.PROT_RW := by decide
  have hr : (tls_read 0 4096 wrapLen wrapBuf stA8192).1.state.prot 17 = Prot.PROT_READ := by
    decide
  refine ⟨stA8192_reachable,
    ClosedPages_of_ProtInv (reachable_Inv stA8192_reachable)
      (ProtInv_tls_create envA 0 8192 State.init ProtInv_init),
    ⟨by decide, by decide, hok⟩, by decide, by decide, by decide, by decide, by decide,
    by decide, hw,
    Reachable.step (.write 0 4096 wrapLen wrapBuf) stA8192_reachable ⟨by decide, by decide, hok⟩,
    ?_, by decide, hr,
    Reachable.step (.read 0 4096 wrapLen wrapBuf) stA8192_reachable ⟨by decide, by decide, hok⟩,
    ?_⟩
  · intro h
    have h1 := h 0 1 ⟨8192, 0x10000, 2⟩ 17 (by decide) (by decide) (by decide)
    rw [hw] at h1
    cases h1
  · intro h
    have h1 := h 0 1 ⟨8192, 0x10000, 2⟩ 17 (by decide) (by decide) (by decide)
    rw [hr] at h1
    cases h1

/-- C23: in every state reachable from the initial state by calls of
`tls_create`, `tls_write`, `tls_read`, `tls_destroy` and `tls_clone`, the
`thread_tls` pointer of each thread and the value it has stored under `tls_key`
are equal (both null or both the same record); hence `tls_clone` returns `-1`
and leaves the whole state as it is, for every caller, every `tid` and whatever
storage is available; and the counter of every bound region holds 1. -/
theorem tls_clone_never_succeeds (s : State) (h : Reachable s) :
    (∀ t, s.thread_tls t = s.specific t) ∧
    (∀ e t tid, tls_clone e t tid s = .ret (-1) s) ∧
    (∀ t p, s.thread_tls t = some p →
      ∃ r, s.tlsHeap p = some r ∧ s.intHeap r.ref_count = some 1) := by
  refine ⟨fun t => (reachable_specific_eq h t).symm,
    fun e t tid => tls_clone_reachable h e t tid, ?_⟩
  intro t p hb
  obtain ⟨r, hr, hc, _⟩ := (reachable_Inv h).2.1 t p hb
  exact ⟨r, hr, hc⟩

/-- C23 at concrete inputs: thread 0 holds a region it has written to; a
`tls_clone(0)` of thread 1 and a `tls_clone(1)` of thread 0 return `-1`, and
the counter of the region is 1. -/
theorem tls_clone_never_succeeds_witness :
    Reachable stHello ∧ stHello.thread_tls 0 = some 1 ∧ stHello.specific 0 = some 1 ∧
    stHello.thread_tls 1 = none ∧ stHello.specific 1 = none ∧
    tls_clone envB 1 0 stHello = .ret (-1) stHello ∧
    tls_clone envB 0 1 stHello = .ret (-1) stHello ∧
    stHello.intHeap 2 = some 1 :=
  ⟨stHello_reachable, by decide, by decide, by decide, by decide,
    (tls_clone_never_succeeds stHello stHello_reachable).2.1 envB 1 0,
    (tls_clone_never_succeeds stHello stHello_reachable).2.1 envB 0 1, by decide⟩

end Tls

namespace Threads

/-! ## The scan of `schedule` -/

/-- A successful scan ends at the first slot, in cyclic order from its start,
whose status is not `TS_EXITED`. -/
theorem findNext_some (th : Nat → thread_control_block) : ∀ (fuel i n : Nat),
    i < MAX_THREADS → findNext th fuel i = some n →
    ∃ k, k < fuel ∧ n = (i + k) % MAX_THREADS ∧
      (th n).status ≠ thread_status.TS_EXITED ∧
      ∀ j, j < k → (th ((i + j) % MAX_THREADS)).status = thread_status.TS_EXITED := by
  intro fuel
  induction fuel with
  | zero => intro i n _ h; simp [findNext] at h
  | succ f ih =>
    intro i n hi h
    unfold findNext at h
    split at h
    · rename_i hex
      have hlt : (i + 1) % MAX_THREADS < MAX_THREADS := Nat.mod_lt _ (by decide)
      obtain ⟨k, hk, hn, hst, hall⟩ := ih _ n hlt h
      refine ⟨k + 1, by omega, ?_, hst, ?_⟩
      · rw [hn]
        unfold MAX_THREADS
        omega
      · intro j hj
        cases j with
        | zero =>
          simpa [Nat.mod_eq_of_lt hi] using hex
        | succ j =>
          have := hall j (by omega)
          have e : (i + (j + 1)) % MAX_THREADS = ((i + 1) % MAX_THREADS + j) % MAX_THREADS := by
            unfold MAX_THREADS
            omega
          rw [e]
          exact this
    · rename_i hex
      cases h
      exact ⟨0, by omega, by simp [Nat.mod_eq_of_lt hi], hex, by intro j hj; omega⟩

/-- The scan finds the first slot, in cyclic order from its start, whose
status is not `TS_EXITED`, when the fuel reaches that far. -/
theorem findNext_hit (th : Nat → thread_control_block) : ∀ (fuel i k : Nat),
    i < MAX_THREADS → k < fuel →
    (th ((i + k) % MAX_THREADS)).status ≠ thread_status.TS_EXITED →
    (∀ j, j < k → (th ((i + j) % MAX_THREADS)).status = thread_status.TS_EXITED) →
    findNext th fuel i = some ((i + k) % MAX_THREADS) := by
  intro fuel
  induction fuel with
  | zero => intro i k _ hk; omega
  | succ f ih =>
    intro i k hi hk hst hall
    unfold findNext
    cases k with
    | zero =>
      have e : (i + 0) % MAX_THREADS = i := by simp [Nat.mod_eq_of_lt hi]
      rw [e] at hst ⊢
      simp [hst]
    | succ k =>
      have h0 : (th i).status = thread_status.TS_EXITED := by
        have := hall 0 (by omega)
        simpa [Nat.mod_eq_of_lt hi] using this
      have hlt : (i + 1) % MAX_THREADS < MAX_THREADS := Nat.mod_lt _ (by decide)
      have e : ∀ j, ((i + 1) % MAX_THREADS + j) % MAX_THREADS = (i + (j + 1)) % MAX_THREADS := by
        intro j
        unfold MAX_THREADS
        omega
      have := ih ((i + 1) % MAX_THREADS) k hlt (by omega) (by rw [e]; exact hst)
        (by
          intro j hj
          rw [e]
          exact hall (j + 1) (by omega))
      rw [e] at this
      simp [h0, this]

/-- A slot found by the scan is a slot of the table. -/
theorem findNext_lt (th : Nat → thread_control_block) (fuel i n : Nat)
    (hi : i < MAX_THREADS) (h : findNext th fuel i = some n) : n < MAX_THREADS := by
  obtain ⟨k, _, hn, _⟩ := findNext_some th fuel i n hi h
  rw [hn]
  exact Nat.mod_lt _ (by decide)

/-- Status of a slot after `setStatus`. -/
theorem setStatus_status (th : Nat → thread_control_block) (i j : Nat) (st : thread_status) :
    (setStatus th i st j).status = if j = i then st else (th j).status := by
  unfold setStatus setTCB
  split <;> simp

/-- `setStatus` changes the status only. -/
theorem setStatus_fields (th : Nat → thread_control_block) (i j : Nat) (st : thread_status) :
    (setStatus th i st j).exited = (th j).exited ∧
    (setStatus th i st j).stack = (th j).stack ∧
    (setStatus th i st j).exit_status = (th j).exit_status := by
  unfold setStatus setTCB
  split
  · rename_i h
    subst h
    simp
  · simp

/-- When the current slot is a slot of the table and its status is not
`TS_EXITED`, `schedule` returns: it marks the current slot `TS_READY`, then
marks `TS_RUNNING` and makes current the first slot after it, in cyclic order,
whose status is not `TS_EXITED`. -/
theorem schedule_switch (s : Sched) (hc : s.current_thread_id < MAX_THREADS)
    (ha : (s.threads s.current_thread_id).status ≠ thread_status.TS_EXITED) :
    ∃ k, k < MAX_THREADS ∧
      (s.threads ((s.current_thread_id + 1 + k) % MAX_THREADS)).status ≠ thread_status.TS_EXITED ∧
      (∀ j, j < k →
        (s.threads ((s.current_thread_id + 1 + j) % MAX_THREADS)).status
          = thread_status.TS_EXITED) ∧
      schedule s = some { s with
        threads := setStatus (setStatus s.threads s.current_thread_id thread_status.TS_READY)
          ((s.current_thread_id + 1 + k) % MAX_THREADS) thread_status.TS_RUNNING
        current_thread_id := (s.current_thread_id + 1 + k) % MAX_THREADS } := by
  generalize hcdef : s.current_thread_id = c at *
  let th1 := setStatus s.threads c thread_status.TS_READY
  have hex : ∃ k, (th1 ((c + 1 + k) % MAX_THREADS)).status ≠ thread_status.TS_EXITED := by
    refine ⟨127, ?_⟩
    have e : (c + 1 + 127) % MAX_THREADS = c := by
      unfold MAX_THREADS at *
      omega
    rw [e]
    simp [th1, setStatus_status]
  classical
  let k := Nat.find hex
  have hk : (th1 ((c + 1 + k) % MAX_THREADS)).status ≠ thread_status.TS_EXITED := Nat.find_spec hex
  have hmin : ∀ j, j < k → (th1 ((c + 1 + j) % MAX_THREADS)).status = thread_status.TS_EXITED := by
    intro j hj
    have := Nat.find_min hex hj
    simpa using this
  have hk127 : k ≤ 127 := by
    apply Nat.find_min'
    have e : (c + 1 + 127) % MAX_THREADS = c := by
      unfold MAX_THREADS at *
      omega
    rw [e]
    simp [th1, setStatus_status]
  have hne : ∀ j, j < k → (c + 1 + j) % MAX_THREADS ≠ c := by
    intro j hj
    unfold MAX_THREADS at *
    omega
  have hfind : findNext th1 MAX_THREADS ((c + 1) % MAX_THREADS)
      = some ((c + 1 + k) % MAX_THREADS) := by
    have e : ∀ j, ((c + 1) % MAX_THREADS + j) % MAX_THREADS = (c + 1 + j) % MAX_THREADS := by
      intro j
      unfold MAX_THREADS
      omega
    have := findNext_hit th1 MAX_THREADS ((c + 1) % MAX_THREADS) k
      (Nat.mod_lt _ (by decide)) (by unfold MAX_THREADS; omega) (by rw [e]; exact hk)
      (by
        intro j hj
        rw [e]
        exact hmin j hj)
    rw [e] at this
    exact this
  refine ⟨k, by unfold MAX_THREADS; omega, ?_, ?_, ?_⟩
  · by_cases hn : (c + 1 + k) % MAX_THREADS = c
    · rw [hn]
      exact ha
    · have := hk
      simp only [th1, setStatus_status, hn, if_false] at this
      exact this
  · intro j hj
    have := hmin j hj
    simp only [th1, setStatus_status, hne j hj, if_false] at this
    exact this
  · unfold schedule
    simp only [hcdef, ha, ne_eq, not_false_eq_true, if_true]
    show (match findNext th1 MAX_THREADS ((c + 1) % MAX_THREADS) with
      | none => none
      | some n => some { s with
          threads := setStatus th1 n thread_status.TS_RUNNING
          current_thread_id := n }) = _
    rw [hfind]

/-- When the status of the current slot is `TS_EXITED`, `schedule` returns at
once and changes nothing. -/
theorem schedule_idle (s : Sched)
    (h : (s.threads s.current_thread_id).status = thread_status.TS_EXITED) :
    schedule s = some s := by
  simp [schedule, h]

/-! ## Invariants of the table -/

/-- The initial state satisfies the invariant. -/
theorem SchedInv_init : SchedInv Sched.init := by
  refine ⟨by decide, by decide, ?_, ?_, ?_, ?_⟩
  · intro _
    exact ⟨rfl, rfl, fun _ => rfl⟩
  · intro h
    cases h
  · intro i h
    simp [Sched.init, zeroTCB] at h
  · intro i _ _
    rfl

/-- `schedule` keeps the invariant. -/
theorem SchedInv_schedule {s s1 : Sched} (h : SchedInv s) (hs : schedule s = some s1) :
    SchedInv s1 := by
  obtain ⟨i1, i2, i3, i4, i5, i6⟩ := h
  by_cases ha : (s.threads s.current_thread_id).status = thread_status.TS_EXITED
  · rw [schedule_idle s ha] at hs
    cases hs
    exact ⟨i1, i2, i3, i4, i5, i6⟩
  · obtain ⟨k, _, hn, _, hsw⟩ := schedule_switch s i1 ha
    rw [hsw] at hs
    cases hs
    have hfc : s.is_first_call = false := by
      cases hq : s.is_first_call with
      | false => rfl
      | true => exact absurd ((i3 hq).2.2 _) ha
    refine ⟨Nat.mod_lt _ (by decide), i2, ?_, ?_, ?_, ?_⟩
    · intro hq
      rw [hfc] at hq
      cases hq
    · intro _
      simp [setStatus_status]
    · intro i hi
      simp only [setStatus_status] at hi
      split at hi
      · assumption
      · split at hi
        · cases hi
        · rename_i h1 h2
          exact absurd (i5 i hi) h2
    · intro i hi hpos
      have hz := i6 i hi hpos
      have e1 : i ≠ s.current_thread_id := by
        intro e
        rw [e] at hz
        rw [hz] at ha
        exact ha rfl
      have e2 : i ≠ (s.current_thread_id + 1 + k) % MAX_THREADS := by
        intro e
        rw [e] at hz
        rw [hz] at hn
        exact hn rfl
      simp [setStatus, setTCB, e1, e2, hz]

/-- `pthread_create` once `scheduler_init` has run, with the table full. -/
theorem pthread_create_full (stack : Option Nat) (s : Sched) (hq : s.is_first_call = false)
    (hcap : MAX_THREADS ≤ s.next_thread_id) : pthread_create stack s = (-1, none, s) := by
  simp [pthread_create, hq, hcap]

/-- `pthread_create` once `scheduler_init` has run, when `malloc` fails. -/
theorem pthread_create_nomem (s : Sched) (hq : s.is_first_call = false) :
    pthread_create none s = (-1, none, s) := by
  simp [pthread_create, hq]

/-- `pthread_create` once `scheduler_init` has run, with a free slot and a stack. -/
theorem pthread_create_ok (p : Nat) (s : Sched) (hq : s.is_first_call = false)
    (hcap : s.next_thread_id < MAX_THREADS) :
    pthread_create (some p) s = (0, some s.next_thread_id,
      { s with
        next_thread_id := s.next_thread_id + 1
        threads := setTCB s.threads s.next_thread_id
          { s.threads s.next_thread_id with
            exited := false, status := thread_status.TS_READY, stack := some p } }) := by
  have : ¬ MAX_THREADS ≤ s.next_thread_id := by omega
  simp [pthread_create, hq, this]

/-- The first `pthread_create` of a run in which nothing was created, when
`malloc` fails: only `scheduler_init` has an effect. -/
theorem pthread_create_first_nomem (s : Sched) (hq : s.is_first_call = true)
    (h0 : s.next_thread_id = 0) :
    pthread_create none s = (-1, none,
      { s with
        is_first_call := false
        threads := setTCB s.threads 0
          { s.threads 0 with exited := false, status := thread_status.TS_RUNNING, stack := none } }) := by
  simp [pthread_create, hq, h0, scheduler_init, MAX_THREADS]

/-- The first `pthread_create` of a run in which nothing was created, with a
stack: the new thread gets slot 0, the slot `scheduler_init` has just given to
the initial thread. -/
theorem pthread_create_first_ok (p : Nat) (s : Sched) (hq : s.is_first_call = true)
    (h0 : s.next_thread_id = 0) :
    pthread_create (some p) s = (0, some 0,
      { s with
        is_first_call := false
        next_thread_id := 1
        threads := setTCB (setTCB s.threads 0
            { s.threads 0 with exited := false, status := thread_status.TS_RUNNING, stack := none }) 0
          { s.threads 0 with exited := false, status := thread_status.TS_READY, stack := some p } }) := by
  simp [pthread_create, hq, h0, scheduler_init, MAX_THREADS, setTCB]

/-- `pthread_create` keeps the invariant. -/
theorem SchedInv_pthread_create (stack : Option Nat) {s : Sched} (h : SchedInv s) :
    SchedInv (pthread_create stack s).2.2 := by
  obtain ⟨i1, i2, i3, i4, i5, i6⟩ := h
  cases hq : s.is_first_call with
  | true =>
    obtain ⟨n0, c0, hall⟩ := i3 hq
    have hz : ∀ i, 0 < i → s.threads i = zeroTCB := fun i hi => i6 i (by omega) hi
    cases stack with
    | none =>
      rw [pthread_create_first_nomem s hq n0]
      refine ⟨i1, i2, ?_, ?_, ?_, ?_⟩
      · intro hh
        cases hh
      · intro _
        simp [c0, setTCB]
      · intro i hi
        by_cases h0 : i = 0
        · simp [c0, h0]
        · simp [setTCB, h0, hall i] at hi
      · intro i _ hpos
        have h0 : i ≠ 0 := by omega
        simp [setTCB, h0, hz i hpos]
    | some p =>
      rw [pthread_create_first_ok p s hq n0]
      refine ⟨i1, by simp [MAX_THREADS], ?_, ?_, ?_, ?_⟩
      · intro hh
        cases hh
      · intro _
        simp [c0, setTCB]
      · intro i hi
        by_cases h0 : i = 0
        · simp [setTCB, h0] at hi
        · simp [setTCB, h0, hall i] at hi
      · intro i _ hpos
        have h0 : i ≠ 0 := by omega
        simp [setTCB, h0, hz i hpos]
  | false =>
    have hal := i4 hq
    by_cases hcap : MAX_THREADS ≤ s.next_thread_id
    · rw [pthread_create_full stack s hq hcap]
      exact ⟨i1, i2, i3, i4, i5, i6⟩
    · cases stack with
      | none =>
        rw [pthread_create_nomem s hq]
        exact ⟨i1, i2, i3, i4, i5, i6⟩
      | some p =>
        rw [pthread_create_ok p s hq (by omega)]
        refine ⟨i1, by simp only; omega, ?_, ?_, ?_, ?_⟩
        · intro hh
          simp [hq] at hh
        · intro _
          simp only [setTCB]
          split
          · simp
          · exact hal
        · intro i hi
          simp only [setTCB] at hi
          split at hi
          · simp at hi
          · exact i5 i hi
        · intro i hi hpos
          simp only at hi
          have e : i ≠ s.next_thread_id := by omega
          simp only [setTCB, e, if_false]
          exact i6 i (by omega) hpos

/-- `pthread_exit` keeps the invariant. -/
theorem SchedInv_pthread_exit (v : Nat) {s s1 : Sched} (h : SchedInv s)
    (hs : pthread_exit v s = some s1) : SchedInv s1 := by
  unfold pthread_exit at hs
  refine SchedInv_schedule ?_ hs
  obtain ⟨i1, i2, i3, i4, i5, i6⟩ := h
  have hst : ∀ i, ((setTCB s.threads s.current_thread_id
      { s.threads s.current_thread_id with exited := true, exit_status := v }) i).status
      = (s.threads i).status := by
    intro i
    unfold setTCB
    split
    · rename_i e
      rw [e]
    · rfl
  refine ⟨i1, i2, ?_, ?_, ?_, ?_⟩
  · intro hq
    obtain ⟨a, b, c⟩ := i3 hq
    refine ⟨a, b, ?_⟩
    intro i
    show ((setTCB s.threads s.current_thread_id _) i).status = _
    rw [hst]
    exact c i
  · intro hq
    show ((setTCB s.threads s.current_thread_id _) s.current_thread_id).status ≠ _
    rw [hst]
    exact i4 hq
  · intro i hi
    change ((setTCB s.threads s.current_thread_id _) i).status = _ at hi
    rw [hst] at hi
    exact i5 i hi
  · intro i hi hpos
    have hz := i6 i hi hpos
    have e : i ≠ s.current_thread_id := by
      intro e
      cases hq : s.is_first_call with
      | true =>
        have := (i3 hq).2.1
        omega
      | false =>
        have := i4 hq
        rw [← e, hz] at this
        exact this rfl
    show (setTCB s.threads s.current_thread_id _) i = zeroTCB
    simp only [setTCB, e, if_false]
    exact hz

/-- Every reachable state satisfies the invariant. -/
theorem sched_reachable_SchedInv {s : Sched} (h : SchedReachable s) : SchedInv s := by
  induction h with
  | init => exact SchedInv_init
  | step op _ hap ih =>
    cases op with
    | create stack =>
      simp only [apply, Option.some.injEq] at hap
      rw [← hap]
      exact SchedInv_pthread_create stack ih
    | exit v => exact SchedInv_pthread_exit v ih hap
    | tick => exact SchedInv_schedule ih hap

/-! ## Round robin -/

/-- The form of `schedule_switch` used for the round-robin argument: the slot
made current is the first live one after the current slot, and the set of live
slots is unchanged. -/
theorem schedule_alive (s : Sched) (hc : s.current_thread_id < MAX_THREADS)
    (ha : alive s s.current_thread_id = true) :
    ∃ k s1, k < MAX_THREADS ∧ schedule s = some s1 ∧
      s1.current_thread_id = (s.current_thread_id + 1 + k) % MAX_THREADS ∧
      alive s ((s.current_thread_id + 1 + k) % MAX_THREADS) = true ∧
      (∀ j, j < k → alive s ((s.current_thread_id + 1 + j) % MAX_THREADS) = false) ∧
      ∀ i, alive s1 i = alive s i := by
  have ha' : (s.threads s.current_thread_id).status ≠ thread_status.TS_EXITED := by
    simpa [alive] using ha
  obtain ⟨k, hk, hn, hmin, hsw⟩ := schedule_switch s hc ha'
  refine ⟨k, _, hk, hsw, rfl, by simpa [alive] using hn, ?_, ?_⟩
  · intro j hj
    simpa [alive] using hmin j hj
  · intro i
    simp only [alive, setStatus_status]
    by_cases h1 : i = (s.current_thread_id + 1 + k) % MAX_THREADS
    · rw [if_pos h1, h1]
      simp [hn]
    · rw [if_neg h1]
      by_cases h2 : i = s.current_thread_id
      · rw [if_pos h2, h2]
        simp [ha']
      · rw [if_neg h2]

/-- A walk without a live slot contributes nothing. -/
theorem walkHits_none (A : Nat → Bool) (c d m : Nat)
    (h : ∀ j, j < m → A ((c + (d + 1 + j)) % MAX_THREADS) = false) : walkHits A c d m = [] := by
  unfold walkHits
  rw [List.filter_eq_nil_iff]
  intro a ha
  rw [List.mem_map] at ha
  obtain ⟨x, hx, rfl⟩ := ha
  rw [List.mem_range'_1] at hx
  have := h (x - (d + 1)) (by omega)
  have e : d + 1 + (x - (d + 1)) = x := by omega
  rw [e] at this
  simp [this]

/-- A walk whose first live slot comes after `k` dead ones. -/
theorem walkHits_split (A : Nat → Bool) (c d m k : Nat) (hk : k < m)
    (hhit : A ((c + (d + 1 + k)) % MAX_THREADS) = true)
    (hmin : ∀ j, j < k → A ((c + (d + 1 + j)) % MAX_THREADS) = false) :
    walkHits A c d m
      = (c + (d + 1 + k)) % MAX_THREADS :: walkHits A c (d + 1 + k) (m - k - 1) := by
  have e : m = (m - k - 1 + 1) + k := by omega
  have hsplit : List.range' (d + 1) m
      = List.range' (d + 1) k ++ (d + 1 + k) :: List.range' (d + 1 + k + 1) (m - k - 1) := by
    rw [← List.range'_succ, List.range'_append_1]
    rw [← e]
  have h0 := walkHits_none A c d k hmin
  unfold walkHits at h0 ⊢
  rw [hsplit, List.map_append, List.filter_append, h0]
  simp [hhit]

/-- Starting in a live current slot `c + d`, as many invocations of `schedule`
as there are live slots on the walk `c + d + 1, ..., c + d + m` make exactly
these slots current, in the order of the walk. -/
theorem currentsAfter_walk (A : Nat → Bool) (c : Nat) : ∀ (m d : Nat) (s : Sched),
    s.current_thread_id = (c + d) % MAX_THREADS → (∀ i, alive s i = A i) →
    A ((c + d) % MAX_THREADS) = true →
    currentsAfter (walkHits A c d m).length s = some (walkHits A c d m) := by
  intro m
  induction m using Nat.strong_induction_on with
  | _ m ih =>
    intro d s hcur hA hlive
    by_cases hnone : ∀ j, j < m → A ((c + (d + 1 + j)) % MAX_THREADS) = false
    · rw [walkHits_none A c d m hnone]
      rfl
    · have hcl : s.current_thread_id < MAX_THREADS := by
        rw [hcur]
        exact Nat.mod_lt _ (by decide)
      obtain ⟨k, s1, hk, hsch, hc1, hhit, hmin, hal⟩ :=
        schedule_alive s hcl (by rw [hA, hcur]; exact hlive)
      have epos : ∀ j, (s.current_thread_id + 1 + j) % MAX_THREADS
          = (c + (d + 1 + j)) % MAX_THREADS := by
        intro j
        rw [hcur]
        unfold MAX_THREADS
        omega
      rw [epos] at hhit hc1
      rw [hA] at hhit
      have hmin' : ∀ j, j < k → A ((c + (d + 1 + j)) % MAX_THREADS) = false := by
        intro j hj
        have := hmin j hj
        rw [epos, hA] at this
        exact this
      have hkm : k < m := by
        by_contra hge
        apply hnone
        intro j hj
        exact hmin' j (by omega)
      rw [walkHits_split A c d m k hkm hhit hmin']
      have hrec := ih (m - k - 1) (by omega) (d + 1 + k) s1 hc1
        (fun i => by rw [hal, hA]) hhit
      simp only [List.length_cons, currentsAfter, hsch, hrec, hc1, Option.map_some']

/-- One turn of the cyclic walk from slot `c` meets every slot of the table
exactly once. -/
theorem walk_perm (c : Nat) :
    ((List.range' 1 MAX_THREADS).map (fun x => (c + x) % MAX_THREADS)).Perm
      (List.range MAX_THREADS) := by
  rw [List.perm_ext_iff_of_nodup]
  · intro a
    rw [List.mem_map, List.mem_range]
    constructor
    · rintro ⟨x, _, rfl⟩
      exact Nat.mod_lt _ (by decide)
    · intro ha
      refine ⟨(a + MAX_THREADS - c % MAX_THREADS - 1) % MAX_THREADS + 1, ?_, ?_⟩
      · rw [List.mem_range'_1]
        unfold MAX_THREADS
        omega
      · unfold MAX_THREADS at *
        omega
  · apply List.Nodup.map_on
    · intro x hx y hy hxy
      rw [List.mem_range'_1] at hx hy
      unfold MAX_THREADS at *
      omega
    · exact List.nodup_range' 1 MAX_THREADS
  · exact List.nodup_range MAX_THREADS

/-- From a live current slot, as many invocations of `schedule` as there are
live slots make the live slots current, each one once. -/
theorem currentsAfter_perm (s : Sched) (ha : alive s s.current_thread_id = true)
    (hc : s.current_thread_id < MAX_THREADS) :
    ∃ l, currentsAfter (aliveSlots s).length s = some l ∧ l.Perm (aliveSlots s) := by
  have hp : (walkHits (alive s) s.current_thread_id 0 MAX_THREADS).Perm (aliveSlots s) := by
    unfold walkHits aliveSlots
    exact (walk_perm s.current_thread_id).filter _
  have hw := currentsAfter_walk (alive s) s.current_thread_id MAX_THREADS 0 s
    (by simp [Nat.mod_eq_of_lt hc]) (fun _ => rfl) (by simpa [Nat.mod_eq_of_lt hc] using ha)
  rw [hp.length_eq] at hw
  exact ⟨_, hw, hp⟩

/-- In a reachable state with a live slot, the current slot is live. -/
theorem reachable_current_alive {s : Sched} (h : SchedReachable s)
    (hn : 1 ≤ (aliveSlots s).length) : alive s s.current_thread_id = true := by
  obtain ⟨_, _, i3, i4, _, _⟩ := sched_reachable_SchedInv h
  cases hq : s.is_first_call with
  | true =>
    have hall := (i3 hq).2.2
    have : aliveSlots s = [] := by
      unfold aliveSlots
      rw [List.filter_eq_nil_iff]
      intro a _
      simp [alive, hall a]
    rw [this] at hn
    simp at hn
  | false =>
    simpa [alive] using i4 hq

/-! ## What the calls change -/

/-- `schedule` changes statuses and the current slot only. -/
theorem schedule_fields {s s1 : Sched} (h : schedule s = some s1) :
    s1.next_thread_id = s.next_thread_id ∧ s1.is_first_call = s.is_first_call ∧
    s1.freed = s.freed ∧
    ∀ i, (s1.threads i).exited = (s.threads i).exited ∧
      (s1.threads i).stack = (s.threads i).stack ∧
      (s1.threads i).exit_status = (s.threads i).exit_status := by
  unfold schedule at h
  split at h
  · dsimp only at h
    split at h
    · cases h
    · cases h
      refine ⟨rfl, rfl, rfl, ?_⟩
      intro i
      obtain ⟨a1, a2, a3⟩ := setStatus_fields
        (setStatus s.threads s.current_thread_id thread_status.TS_READY) _ i
        thread_status.TS_RUNNING
      obtain ⟨b1, b2, b3⟩ := setStatus_fields s.threads s.current_thread_id i
        thread_status.TS_READY
      exact ⟨by rw [a1, b1], by rw [a2, b2], by rw [a3, b3]⟩
  · cases h
    exact ⟨rfl, rfl, rfl, fun _ => ⟨rfl, rfl, rfl⟩⟩

/-- `schedule` never gives a slot the status `TS_EXITED`. -/
theorem schedule_status_exited {s s1 : Sched} (h : schedule s = some s1) (i : Nat)
    (hi : (s1.threads i).status = thread_status.TS_EXITED) :
    (s.threads i).status = thread_status.TS_EXITED := by
  unfold schedule at h
  split at h
  · dsimp only at h
    split at h
    · cases h
    · cases h
      simp only [setStatus_status] at hi
      split at hi
      · cases hi
      · split at hi
        · cases hi
        · exact hi
  · cases h
    exact hi

/-- What `pthread_exit` leaves in the table: the block that was current is
flagged and holds the value, no other block's flag or exit value changes, and
no status becomes `TS_EXITED`. -/
theorem pthread_exit_fields {s s1 : Sched} {v : Nat} (h : pthread_exit v s = some s1) :
    (s1.threads s.current_thread_id).exited = true ∧
    (s1.threads s.current_thread_id).exit_status = v ∧
    (∀ i, i ≠ s.current_thread_id →
      (s1.threads i).exited = (s.threads i).exited ∧
      (s1.threads i).exit_status = (s.threads i).exit_status) ∧
    (∀ i, (s1.threads i).status = thread_status.TS_EXITED →
      (s.threads i).status = thread_status.TS_EXITED) ∧
    s1.next_thread_id = s.next_thread_id ∧ s1.is_first_call = s.is_first_call := by
  unfold pthread_exit at h
  obtain ⟨f1, f2, _, f4⟩ := schedule_fields h
  refine ⟨?_, ?_, ?_, ?_, f1, f2⟩
  · rw [(f4 _).1]
    simp [setTCB]
  · rw [(f4 _).2.2]
    simp [setTCB]
  · intro i hi
    rw [(f4 i).1, (f4 i).2.2]
    simp [setTCB, hi]
  · intro i hi
    have := schedule_status_exited h i hi
    simp only [setTCB] at this
    split at this
    · rename_i e
      rw [e]
      exact this
    · exact this

/-- The counter after `pthread_create`: one more exactly when 0 is returned. -/
theorem pthread_create_next (stack : Option Nat) (s : Sched) :
    (pthread_create stack s).2.2.next_thread_id
      = s.next_thread_id + if (pthread_create stack s).1 = 0 then 1 else 0 := by
  unfold pthread_create
  cases s.is_first_call <;> cases stack <;> simp [scheduler_init] <;> split <;> simp

/-- A run from a reachable state ends in a reachable state. -/
theorem runOps_reachable (ops : List Op) : ∀ {s s1 : Sched},
    SchedReachable s → runOps ops s = some s1 → SchedReachable s1 := by
  induction ops with
  | nil =>
    intro s s1 h hr
    simp only [runOps, Option.some.injEq] at hr
    rw [← hr]
    exact h
  | cons op ops ih =>
    intro s s1 h hr
    simp only [runOps] at hr
    cases hap : apply op s with
    | none => simp [hap] at hr
    | some s2 =>
      rw [hap] at hr
      exact ih (SchedReachable.step op h hap) hr

/-- The counter counts the calls of `pthread_create` that returned 0. -/
theorem runOps_next (ops : List Op) : ∀ {s s1 : Sched},
    runOps ops s = some s1 → s1.next_thread_id = s.next_thread_id + successes ops s := by
  induction ops with
  | nil =>
    intro s s1 hr
    simp only [runOps, Option.some.injEq] at hr
    rw [← hr]
    rfl
  | cons op ops ih =>
    intro s s1 hr
    simp only [runOps] at hr
    cases hap : apply op s with
    | none => simp [hap] at hr
    | some s2 =>
      rw [hap] at hr
      have h2 := ih hr
      cases op with
      | create stack =>
        simp only [successes, hap]
        simp only [apply, Option.some.injEq] at hap
        have := pthread_create_next stack s
        rw [hap] at this
        rw [h2, this]
        omega
      | exit v =>
        simp only [successes, hap]
        have := (pthread_exit_fields hap).2.2.2.2.1
        rw [h2, this]
        omega
      | tick =>
        simp only [successes, hap]
        have := (schedule_fields hap).1
        rw [h2, this]
        omega

/-- An invocation other than a `pthread_exit` of slot `T` leaves the flag and
the exit value of the created slot `T` alone, and `T` stays created. -/
theorem apply_keeps_exit {s s1 : Sched} (op : Op) (T : Nat) (h : SchedInv s)
    (hT : T < s.next_thread_id) (hap : apply op s = some s1)
    (hno : ∀ v, op = .exit v → s.current_thread_id ≠ T) :
    (s1.threads T).exited = (s.threads T).exited ∧
    (s1.threads T).exit_status = (s.threads T).exit_status ∧ T < s1.next_thread_id := by
  obtain ⟨_, _, i3, _, _, _⟩ := h
  have hfc : s.is_first_call = false := by
    cases hq : s.is_first_call with
    | false => rfl
    | true =>
      have := (i3 hq).1
      omega
  cases op with
  | create stack =>
    simp only [apply, Option.some.injEq] at hap
    rw [← hap]
    by_cases hcap : MAX_THREADS ≤ s.next_thread_id
    · rw [pthread_create_full stack s hfc hcap]
      exact ⟨rfl, rfl, hT⟩
    · cases stack with
      | none =>
        rw [pthread_create_nomem s hfc]
        exact ⟨rfl, rfl, hT⟩
      | some p =>
        rw [pthread_create_ok p s hfc (by omega)]
        have e : T ≠ s.next_thread_id := by omega
        refine ⟨?_, ?_, ?_⟩
        · simp [setTCB, e]
        · simp [setTCB, e]
        · simp only
          omega
  | exit v =>
    have hne : T ≠ s.current_thread_id := fun e => hno v rfl e.symm
    obtain ⟨_, _, f3, _, f5, _⟩ := pthread_exit_fields hap
    exact ⟨(f3 T hne).1, (f3 T hne).2, by rw [f5]; exact hT⟩
  | tick =>
    obtain ⟨f1, _, _, f4⟩ := schedule_fields hap
    exact ⟨(f4 T).1, (f4 T).2.2, by rw [f1]; exact hT⟩

/-- A run without a `pthread_exit` of slot `T` leaves the flag and the exit
value of the created slot `T` alone. -/
theorem runOps_keeps_exit (T : Nat) (ops : List Op) : ∀ {s s1 : Sched},
    SchedReachable s → T < s.next_thread_id → NoExitBy T ops s → runOps ops s = some s1 →
    (s1.threads T).exited = (s.threads T).exited ∧
    (s1.threads T).exit_status = (s.threads T).exit_status := by
  induction ops with
  | nil =>
    intro s s1 _ _ _ hr
    simp only [runOps, Option.some.injEq] at hr
    rw [← hr]
    exact ⟨rfl, rfl⟩
  | cons op ops ih =>
    intro s s1 h hT hno hr
    simp only [runOps] at hr
    cases hap : apply op s with
    | none => simp [hap] at hr
    | some s2 =>
      rw [hap] at hr
      obtain ⟨hno1, hno2⟩ := hno
      rw [hap] at hno2
      obtain ⟨k1, k2, k3⟩ := apply_keeps_exit op T (sched_reachable_SchedInv h) hT hap hno1
      obtain ⟨j1, j2⟩ := ih (SchedReachable.step op h hap) k3 hno2 hr
      exact ⟨by rw [j1, k1], by rw [j2, k2]⟩

/-- A waiting call of `pthread_join` that only sees states in which the flag
of its target is clear, and then a state `s`, does what it does in `s`. -/
theorem joinOver_pre (T : Nat) (retval : Option Nat) (s : Sched) (hT : T < MAX_THREADS)
    (pre : List Sched) (hpre : ∀ x ∈ pre, (x.threads T).exited = false) :
    joinOver T retval (pre ++ [s]) = joinOver T retval [s] := by
  induction pre with
  | nil => rfl
  | cons x pre ih =>
    have hx : pthread_join T retval x = .waiting := by
      have h1 : ¬ T ≥ MAX_THREADS := by omega
      simp [pthread_join, h1, hpre x (List.mem_cons_self _ _)]
    simp only [List.cons_append, joinOver, hx]
    exact ih (fun y hy => hpre y (List.mem_cons_of_mem _ hy))

/-! ## The scenarios are reachable -/

/-- The state after the first `pthread_create` is reachable. -/
theorem stOne_reachable : SchedReachable stOne :=
  SchedReachable.step (.create (some 1000)) SchedReachable.init rfl

/-- The state after the second `pthread_create` is reachable. -/
theorem stTwo_reachable : SchedReachable stTwo :=
  SchedReachable.step (.create (some 2000)) stOne_reachable rfl

/-- A computation that returns is the one its default-free reading names. -/
theorem some_getD {α : Type} (o : Option α) (d : α) (h : o.isSome = true) :
    o = some (o.getD d) := by
  cases o with
  | none => cases h
  | some a => rfl

/-- The first `schedule` after two `pthread_create` returns. -/
theorem stRun_eq : schedule stTwo = some stRun := some_getD _ _ (by decide)

/-- The state with slot 1 current is reachable. -/
theorem stRun_reachable : SchedReachable stRun :=
  SchedReachable.step .tick stTwo_reachable stRun_eq

/-- The `pthread_exit(7)` of slot 1 returns to the scheduler's next thread. -/
theorem stExited_eq : pthread_exit 7 stRun = some stExited := some_getD _ _ (by decide)

/-- The state after the exit of slot 1 is reachable. -/
theorem stExited_reachable : SchedReachable stExited :=
  SchedReachable.step (.exit 7) stRun_reachable stExited_eq

/-- The invocations after the exit of slot 1 all return. -/
theorem stLater_eq : runOps opsLater stExited = some stLater := some_getD _ _ (by decide)

/-- A run that contains no `pthread_exit` at all contains none by slot `T`. -/
theorem noExitBy_of_no_exit (T : Nat) (ops : List Op) : ∀ (s : Sched),
    ops.all (fun op => !op.isExit) = true → NoExitBy T ops s := by
  induction ops with
  | nil => intro _ _; trivial
  | cons op ops ih =>
    intro s h
    simp only [List.all_cons, Bool.and_eq_true, Bool.not_eq_true'] at h
    refine ⟨?_, ?_⟩
    · intro v hv
      rw [hv] at h
      simp [Op.isExit] at h
    · cases apply op s with
      | none => trivial
      | some s1 => exact ih s1 h.2

/-! ## The claims -/

/-- C11 (thread ids unique among live threads, fails on the code): the first
`pthread_create` returns 0 and stores the id 0 in `*thread`, while
`pthread_self` returns 0 for the calling initial thread before and after the
call, and the block of slot 0 is not flagged as exited.  The second call
stores 1. -/
theorem c11_first_created_id_is_the_callers :
    (pthread_create (some 1000) Sched.init).1 = 0 ∧
    (pthread_create (some 1000) Sched.init).2.1 = some 0 ∧
    pthread_self Sched.init = 0 ∧ pthread_self stOne = 0 ∧
    (stOne.threads 0).exited = false ∧
    (pthread_create (some 2000) stOne).2.1 = some 1 := by
  decide

/-- C12 (status after `pthread_exit`, fails on the code): in a reachable state
slot 1 is current and calls `pthread_exit(7)`.  Its block is then flagged
`exited` and holds the exit value 7, but its status is `TS_READY`, not
`TS_EXITED`; slot 0 keeps its exit value. -/
theorem c12_status_after_exit_is_ready :
    SchedReachable stRun ∧ stRun.current_thread_id = 1 ∧
    pthread_exit 7 stRun = some stExited ∧
    (stExited.threads 1).exited = true ∧ (stExited.threads 1).exit_status = 7 ∧
    (stExited.threads 1).status = thread_status.TS_READY ∧
    (stExited.threads 0).exit_status = (stRun.threads 0).exit_status :=
  ⟨stRun_reachable, by decide, stExited_eq, by decide, by decide, by decide, by decide⟩

/-- C13: when a created thread `T` calls `pthread_exit(v)`, then, in every
state reached afterwards by calls of `pthread_create`, of `schedule` and of
`pthread_exit` by other threads, `pthread_join(T, &r)` returns 0 with `r = v`
(and returns 0 for a `NULL` pointer); a call that was waiting while the flag of
`T` was still clear returns the same once it sees such a state, and so does
every repeated call. -/
theorem pthread_join_returns_exit_value (s s1 s2 : Sched) (T v r : Nat) (ops : List Op)
    (pre : List Sched) (hr : SchedReachable s) (hT : T < s.next_thread_id)
    (hc : s.current_thread_id = T) (he : pthread_exit v s = some s1)
    (hno : NoExitBy T ops s1) (hrun : runOps ops s1 = some s2)
    (hpre : ∀ x ∈ pre, (x.threads T).exited = false) :
    pthread_join T (some r) s2 = .returned 0 (some v) ∧
    pthread_join T none s2 = .returned 0 none ∧
    joinOver T (some r) (pre ++ [s2]) = .returned 0 (some v) := by
  have hlt : T < MAX_THREADS := by
    have := (sched_reachable_SchedInv hr).2.1
    omega
  have hr1 : SchedReachable s1 := SchedReachable.step (.exit v) hr he
  obtain ⟨e1, e2, _, _, e5, _⟩ := pthread_exit_fields he
  rw [hc] at e1 e2
  obtain ⟨k1, k2⟩ := runOps_keeps_exit T ops hr1 (by rw [e5]; exact hT) hno hrun
  rw [e1] at k1
  rw [e2] at k2
  have hj : ∀ rv, pthread_join T rv s2
      = .returned 0 (rv.map (fun _ => v)) := by
    intro rv
    have h1 : ¬ T ≥ MAX_THREADS := by omega
    simp [pthread_join, h1, k1, k2]
  refine ⟨hj (some r), hj none, ?_⟩
  rw [joinOver_pre T (some r) s2 hlt pre hpre]
  simp [joinOver, hj]

/-- C13 at concrete inputs: slot 1 exits with 7, the timer runs `schedule`
twice and a third thread is created; a call of `pthread_join(1, &r)` that
started before the exit returns 0 with `r = 7`. -/
theorem pthread_join_returns_exit_value_witness :
    SchedReachable stRun ∧ 1 < stRun.next_thread_id ∧ stRun.current_thread_id = 1 ∧
    pthread_exit 7 stRun = some stExited ∧ runOps opsLater stExited = some stLater ∧
    pthread_join 1 (some 0) stLater = .returned 0 (some 7) ∧
    pthread_join 1 none stLater = .returned 0 none ∧
    joinOver 1 (some 0) ([stTwo, stRun] ++ [stLater]) = .returned 0 (some 7) :=
  ⟨stRun_reachable, by decide, by decide, stExited_eq, stLater_eq,
    pthread_join_returns_exit_value stRun stExited stLater 1 7 0 opsLater [stTwo, stRun]
      stRun_reachable (by decide) (by decide) stExited_eq
      (noExitBy_of_no_exit 1 opsLater stExited (by decide)) stLater_eq (by
        intro x hx
        simp only [List.mem_cons, List.mem_singleton, List.not_mem_nil, or_false] at hx
        rcases hx with rfl | rfl <;> decide)⟩

/-- C14 (join of an id that was never created fails, not so on the code): after
one `pthread_create` only the id 0 has been returned; `pthread_join(5, &r)` and
`pthread_join(127, &r)` stay in the waiting loop instead of returning a
failure, and `pthread_join(128, &r)` indexes the table outside its bounds. -/
theorem c14_join_of_unknown_id_does_not_fail :
    stOne.next_thread_id = 1 ∧
    pthread_join 5 (some 9) stOne = .waiting ∧
    pthread_join 127 (some 9) stOne = .waiting ∧
    pthread_join 128 (some 9) stOne = .outOfBounds := by
  decide

/-- C14 as amended: `pthread_join` has no failure result, it returns 0
whenever it returns; and in every reachable state, for an id between 1 and
`MAX_THREADS - 1` that is at or above the next unallocated slot, it stays in
its waiting loop, so that nothing is stored in `*retval`. -/
theorem pthread_join_unknown_id (s : Sched) (h : SchedReachable s) (id : Nat)
    (retval : Option Nat) :
    (∀ r rv, pthread_join id retval s = .returned r rv → r = 0) ∧
    (s.next_thread_id ≤ id → 0 < id → id < MAX_THREADS →
      pthread_join id retval s = .waiting) := by
  constructor
  · intro r rv hj
    unfold pthread_join at hj
    split at hj
    · cases hj
    · split at hj
      · cases hj
      · cases hj
        rfl
  · intro h1 h2 h3
    have hz := (sched_reachable_SchedInv h).2.2.2.2.2 id h1 h2
    have h4 : ¬ id ≥ MAX_THREADS := by omega
    simp [pthread_join, h4, hz, zeroTCB]

/-- C14 as amended, at concrete inputs: the id 5 after one `pthread_create`. -/
theorem pthread_join_unknown_id_witness :
    SchedReachable stOne ∧ stOne.next_thread_id ≤ 5 ∧
    pthread_join 5 (some 9) stOne = .waiting :=
  ⟨stOne_reachable, by decide,
    (pthread_join_unknown_id stOne stOne_reachable 5 (some 9)).2 (by decide) (by decide)
      (by decide)⟩

/-- C15: after any run from the initial state, at most `MAX_THREADS` calls of
`pthread_create` have returned 0; while fewer have, a call whose `malloc`
succeeds returns 0, stores the next id and advances the counter; once
`MAX_THREADS` have, whatever has been called since, every call returns `-1`,
stores nothing in `*thread` and leaves the table and the counter as they are. -/
theorem pthread_create_capacity (ops : List Op) (s : Sched)
    (h : runOps ops Sched.init = some s) :
    successes ops Sched.init ≤ MAX_THREADS ∧
    (successes ops Sched.init < MAX_THREADS → ∀ p, ∃ s1,
      pthread_create (some p) s = (0, some (successes ops Sched.init), s1) ∧
      s1.next_thread_id = s.next_thread_id + 1) ∧
    (successes ops Sched.init = MAX_THREADS → ∀ stack,
      pthread_create stack s = (-1, none, s)) := by
  have hr : SchedReachable s := runOps_reachable ops SchedReachable.init h
  have hn : s.next_thread_id = successes ops Sched.init := by
    have := runOps_next ops h
    simpa [Sched.init] using this
  obtain ⟨_, i2, i3, _, _, _⟩ := sched_reachable_SchedInv hr
  rw [← hn]
  refine ⟨i2, ?_, ?_⟩
  · intro hlt p
    cases hq : s.is_first_call with
    | true =>
      have h0 := (i3 hq).1
      rw [pthread_create_first_ok p s hq h0, h0]
      exact ⟨_, rfl, rfl⟩
    | false =>
      rw [pthread_create_ok p s hq hlt]
      exact ⟨_, rfl, rfl⟩
  · intro hfull stack
    have hq : s.is_first_call = false := by
      cases hq : s.is_first_call with
      | false => rfl
      | true =>
        have h0 := (i3 hq).1
        rw [h0] at hfull
        exact absurd hfull (by decide)
    exact pthread_create_full stack s hq (by omega)

set_option maxRecDepth 100000 in
/-- C15 at concrete inputs: after two successful calls a third one succeeds
with id 2; after 128 successful calls, a `schedule` and a `pthread_exit`, a
call returns `-1` and changes nothing. -/
theorem pthread_create_capacity_witness :
    runOps [.create (some 1000), .create (some 2000)] Sched.init = some stTwo ∧
    (∃ s1, pthread_create (some 3000) stTwo = (0, some 2, s1) ∧
      s1.next_thread_id = stTwo.next_thread_id + 1) ∧
    runOps opsFull Sched.init = some stFull ∧ successes opsFull Sched.init = MAX_THREADS ∧
    pthread_create (some 3000) stFull = (-1, none, stFull) := by
  have h : runOps [.create (some 1000), .create (some 2000)] Sched.init = some stTwo := rfl
  have hf : runOps opsFull Sched.init = some stFull := some_getD _ _ (by decide)
  have hn : successes opsFull Sched.init = MAX_THREADS := by decide
  refine ⟨h, ?_, hf, hn, (pthread_create_capacity opsFull stFull hf).2.2 hn (some 3000)⟩
  have := (pthread_create_capacity _ stTwo h).2.1 (by decide) 3000
  simpa [successes, apply, pthread_create, Sched.init, scheduler_init, MAX_THREADS] using this

/-- C16 (`pthread_self` names a running block, fails on the code): after the
first `pthread_create`, which has run `scheduler_init`, `pthread_self` returns
0 and the status of block 0 is `TS_READY`; no block at all is `TS_RUNNING`. -/
theorem c16_current_block_is_ready_after_first_create :
    SchedReachable stOne ∧ stOne.is_first_call = false ∧ pthread_self stOne = 0 ∧
    (stOne.threads (pthread_self stOne)).status = thread_status.TS_READY ∧
    ∀ i, (stOne.threads i).status ≠ thread_status.TS_RUNNING := by
  refine ⟨stOne_reachable, by decide, by decide, by decide, ?_⟩
  intro i hi
  have h0 : i = stOne.current_thread_id :=
    (sched_reachable_SchedInv stOne_reachable).2.2.2.2.1 i hi
  have h1 : stOne.current_thread_id = 0 := by decide
  rw [h0, h1] at hi
  exact absurd hi (by decide)

/-- C17: in every state reachable from the initial table by calls of
`pthread_create`, `pthread_exit` and `schedule`, at most one block has status
`TS_RUNNING`. -/
theorem at_most_one_running (s : Sched) (h : SchedReachable s) (i j : Nat)
    (hi : (s.threads i).status = thread_status.TS_RUNNING)
    (hj : (s.threads j).status = thread_status.TS_RUNNING) : i = j := by
  have hinv := (sched_reachable_SchedInv h).2.2.2.2.1
  rw [hinv i hi, hinv j hj]

/-- C17 at concrete inputs: block 1 is the running one after the first
`schedule`. -/
theorem at_most_one_running_witness :
    SchedReachable stRun ∧ (stRun.threads 1).status = thread_status.TS_RUNNING ∧
    ∀ j, (stRun.threads j).status = thread_status.TS_RUNNING → 1 = j :=
  ⟨stRun_reachable, by decide,
    fun j hj => at_most_one_running stRun stRun_reachable 1 j (by decide) hj⟩

/-- C18: when the current slot `c` is a slot of the table and its status is
not `TS_EXITED`, `schedule` returns; the slot it makes current and marks
`TS_RUNNING` is `(c + 1 + k) mod 128` for the least `k` such that the status of
that slot is not `TS_EXITED` (it is `c` itself for `k = 127`); `c` is marked
`TS_READY` when another slot is chosen; and no other block and no other field
changes. -/
theorem schedule_round_robin (s : Sched) (hc : s.current_thread_id < MAX_THREADS)
    (ha : (s.threads s.current_thread_id).status ≠ thread_status.TS_EXITED) :
    ∃ k s1, k < MAX_THREADS ∧ schedule s = some s1 ∧
      s1.current_thread_id = (s.current_thread_id + 1 + k) % MAX_THREADS ∧
      (s.threads s1.current_thread_id).status ≠ thread_status.TS_EXITED ∧
      (∀ j, j < k →
        (s.threads ((s.current_thread_id + 1 + j) % MAX_THREADS)).status
          = thread_status.TS_EXITED) ∧
      (s1.threads s1.current_thread_id).status = thread_status.TS_RUNNING ∧
      (s1.current_thread_id ≠ s.current_thread_id →
        (s1.threads s.current_thread_id).status = thread_status.TS_READY) ∧
      (∀ i, i ≠ s.current_thread_id → i ≠ s1.current_thread_id →
        s1.threads i = s.threads i) ∧
      (∀ i, (s1.threads i).exited = (s.threads i).exited ∧
        (s1.threads i).stack = (s.threads i).stack ∧
        (s1.threads i).exit_status = (s.threads i).exit_status) ∧
      s1.next_thread_id = s.next_thread_id := by
  obtain ⟨k, hk, hn, hmin, hsw⟩ := schedule_switch s hc ha
  obtain ⟨f1, _, _, f4⟩ := schedule_fields hsw
  refine ⟨k, _, hk, hsw, rfl, hn, hmin, ?_, ?_, ?_, f4, f1⟩
  · simp [setStatus_status]
  · intro hne
    simp only [setStatus_status]
    rw [if_neg (fun e => hne e.symm)]
    simp
  · intro i h1 h2
    simp only at h2
    simp [setStatus, setTCB, h1, h2]

/-- C18 at concrete inputs: with slots 0 and 1 created and slot 0 current,
`schedule` makes slot 1 current and running and slot 0 ready. -/
theorem schedule_round_robin_witness :
    stTwo.current_thread_id < MAX_THREADS ∧
    (stTwo.threads stTwo.current_thread_id).status ≠ thread_status.TS_EXITED ∧
    ∃ k s1, k < MAX_THREADS ∧ schedule stTwo = some s1 ∧
      s1.current_thread_id = (stTwo.current_thread_id + 1 + k) % MAX_THREADS ∧
      (s1.threads s1.current_thread_id).status = thread_status.TS_RUNNING := by
  refine ⟨by decide, by decide, ?_⟩
  obtain ⟨k, s1, h1, h2, h3, _, _, h6, _⟩ :=
    schedule_round_robin stTwo (by decide) (by decide)
  exact ⟨k, s1, h1, h2, h3, h6⟩

/-- C19: in a reachable state with `N ≥ 1` blocks whose status is not
`TS_EXITED`, `N` consecutive invocations of `schedule` all return, and the
slots they make current are these `N` slots, each of them exactly once. -/
theorem round_robin_fairness (s : Sched) (h : SchedReachable s)
    (hn : 1 ≤ (aliveSlots s).length) :
    ∃ l, currentsAfter (aliveSlots s).length s = some l ∧ l.Perm (aliveSlots s) ∧
      ∀ i, i < MAX_THREADS → (s.threads i).status ≠ thread_status.TS_EXITED →
        l.count i = 1 := by
  have hc := (sched_reachable_SchedInv h).1
  obtain ⟨l, hl, hp⟩ := currentsAfter_perm s (reachable_current_alive h hn) hc
  refine ⟨l, hl, hp, ?_⟩
  intro i hi hst
  rw [hp.count_eq]
  apply List.count_eq_one_of_mem
  · exact (List.nodup_range MAX_THREADS).filter _
  · unfold aliveSlots
    rw [List.mem_filter]
    exact ⟨List.mem_range.2 hi, by simpa [alive] using hst⟩

set_option maxRecDepth 100000 in
/-- C19 at concrete inputs: with three live slots and slot 2 current, three
invocations of `schedule` make slots 0, 1 and 2 current. -/
theorem round_robin_fairness_witness :
    SchedReachable stLater ∧ aliveSlots stLater = [0, 1, 2] ∧
    stLater.current_thread_id = 2 ∧ currentsAfter 3 stLater = some [0, 1, 2] ∧
    ∃ l, currentsAfter (aliveSlots stLater).length stLater = some l ∧
      l.Perm (aliveSlots stLater) := by
  have hr : SchedReachable stLater := runOps_reachable opsLater stExited_reachable stLater_eq
  refine ⟨hr, by decide, by decide, by decide, ?_⟩
  obtain ⟨l, h1, h2, _⟩ := round_robin_fairness stLater hr (by decide)
  exact ⟨l, h1, h2⟩

/-- C20 (an exited thread is never selected again, fails on the code): slot 1
has called `pthread_exit(7)` and slot 0 is current; the next invocation of
`schedule` makes slot 1 current again and marks it `TS_RUNNING`, although its
block is flagged `exited`. -/
theorem c20_exited_thread_is_selected_again :
    SchedReachable stExited ∧ (stExited.threads 1).exited = true ∧
    stExited.current_thread_id = 0 ∧
    (schedule stExited).map (fun s => s.current_thread_id) = some 1 ∧
    (schedule stExited).map (fun s => (s.threads 1).status)
      = some thread_status.TS_RUNNING ∧
    (schedule stExited).map (fun s => (s.threads 1).exited) = some true :=
  ⟨stExited_reachable, by decide, by decide, by decide, by decide, by decide⟩

/-- A scan that is given no more fuel than there are slots with status
`TS_EXITED` before the first other slot finds nothing. -/
theorem findNext_short (th : Nat → thread_control_block) (fuel i k : Nat)
    (hi : i < MAX_THREADS) (hk : fuel ≤ k)
    (hall : ∀ j, j < k → (th ((i + j) % MAX_THREADS)).status = thread_status.TS_EXITED) :
    findNext th fuel i = none := by
  cases h : findNext th fuel i with
  | none => rfl
  | some n =>
    obtain ⟨k1, hk1, hn, hst, _⟩ := findNext_some th fuel i n hi h
    rw [hn] at hst
    exact absurd (hall k1 (by omega)) hst

/-- C21: for every table and every current slot `c < 128` whose status is not
`TS_EXITED`, the scan of `schedule` for the next slot ends: there is `k < 128`
such that the scan stops at its test number `k + 1`, with any fuel above `k`
and with none at or below `k`, at the slot `(c + 1 + k) mod 128`, which is a
slot of the table; for `k = 127` that slot is `c` itself, which was just marked
`TS_READY`; and `schedule` returns. -/
theorem schedule_scan_terminates (s : Sched) (hc : s.current_thread_id < MAX_THREADS)
    (ha : (s.threads s.current_thread_id).status ≠ thread_status.TS_EXITED) :
    ∃ k, k < MAX_THREADS ∧
      (s.current_thread_id + 1 + k) % MAX_THREADS < MAX_THREADS ∧
      (∀ fuel, k < fuel →
        findNext (setStatus s.threads s.current_thread_id thread_status.TS_READY) fuel
          ((s.current_thread_id + 1) % MAX_THREADS)
          = some ((s.current_thread_id + 1 + k) % MAX_THREADS)) ∧
      (∀ fuel, fuel ≤ k →
        findNext (setStatus s.threads s.current_thread_id thread_status.TS_READY) fuel
          ((s.current_thread_id + 1) % MAX_THREADS) = none) ∧
      (k = 127 → (s.current_thread_id + 1 + k) % MAX_THREADS = s.current_thread_id) ∧
      (schedule s).isSome = true := by
  obtain ⟨k, hk, hn, hmin, hsw⟩ := schedule_switch s hc ha
  have e : ∀ j, ((s.current_thread_id + 1) % MAX_THREADS + j) % MAX_THREADS
      = (s.current_thread_id + 1 + j) % MAX_THREADS := by
    intro j
    unfold MAX_THREADS
    omega
  have hmin1 : ∀ j, j < k →
      (setStatus s.threads s.current_thread_id thread_status.TS_READY
        (((s.current_thread_id + 1) % MAX_THREADS + j) % MAX_THREADS)).status
        = thread_status.TS_EXITED := by
    intro j hj
    rw [e, setStatus_status]
    have hne : (s.current_thread_id + 1 + j) % MAX_THREADS ≠ s.current_thread_id := by
      intro heq
      have := hmin j hj
      rw [heq] at this
      exact ha this
    rw [if_neg hne]
    exact hmin j hj
  have hhit : (setStatus s.threads s.current_thread_id thread_status.TS_READY
      (((s.current_thread_id + 1) % MAX_THREADS + k) % MAX_THREADS)).status
      ≠ thread_status.TS_EXITED := by
    rw [e, setStatus_status]
    split
    · intro h
      cases h
    · exact hn
  refine ⟨k, hk, Nat.mod_lt _ (by decide), ?_, ?_, ?_, by rw [hsw]; rfl⟩
  · intro fuel hf
    have := findNext_hit _ fuel ((s.current_thread_id + 1) % MAX_THREADS) k
      (Nat.mod_lt _ (by decide)) hf hhit hmin1
    rw [e] at this
    exact this
  · intro fuel hf
    exact findNext_short _ fuel _ k (Nat.mod_lt _ (by decide)) hf hmin1
  · intro hk127
    unfold MAX_THREADS at *
    omega

/-- C21 at concrete inputs: with slots 0 and 1 created and slot 0 current, the
scan stops at its first test, at slot 1. -/
theorem schedule_scan_terminates_witness :
    stTwo.current_thread_id < MAX_THREADS ∧
    (stTwo.threads stTwo.current_thread_id).status ≠ thread_status.TS_EXITED ∧
    findNext (setStatus stTwo.threads stTwo.current_thread_id thread_status.TS_READY) 1
      ((stTwo.current_thread_id + 1) % MAX_THREADS) = some 1 ∧
    ∃ k, k < MAX_THREADS ∧ (schedule stTwo).isSome = true ∧
      ∀ fuel, k < fuel →
        findNext (setStatus stTwo.threads stTwo.current_thread_id thread_status.TS_READY) fuel
          ((stTwo.current_thread_id + 1) % MAX_THREADS)
          = some ((stTwo.current_thread_id + 1 + k) % MAX_THREADS) := by
  refine ⟨by decide, by decide, by decide, ?_⟩
  obtain ⟨k, h1, _, h3, _, _, h6⟩ := schedule_scan_terminates stTwo (by decide) (by decide)
  exact ⟨k, h1, h6, h3⟩

end Threads
